import Mathlib

/-!
Verification of the direction-detection core of `scripts/direction_detection/attempt1.py`.

Modelling conventions:
* A Python `dict[int, V]` keyed by timestamp is represented as an association
  list `List (Int × V)` whose key list is strictly ascending (every producer in
  the pipeline outputs keys in ascending order, and `sorted(d.keys())` is then
  exactly the key list).  Claims quantifying over arbitrary signals carry the
  strict-sortedness hypothesis explicitly.
* Python `float` arithmetic is modelled exactly with `ℚ` (all values arising in
  the pipeline are rational: integer data, moving averages, ratios).
* Operations that can raise in Python (division by a possibly-zero length,
  `max` of a possibly-empty collection, list indexing) return `Option`; the
  three analyzers therefore return `Option DetectionResult`, `none` standing
  for a raised exception.
-/

/-- Association-list representation of a Python `dict[int, ·]`. -/
abbrev Sig (α : Type) := List (Int × α)

/-- The key list of a signal; for the sorted representation this is
`sorted(signal.keys())`. -/
def sigKeys {α : Type} (s : Sig α) : List Int := s.map Prod.fst

/-- `signal.get(t, d)`: dictionary lookup with default. -/
def lookupD {α : Type} (s : Sig α) (t : Int) (d : α) : α :=
  match s.find? (fun p => p.1 == t) with
  | some p => p.2
  | none => d

/-- Total list indexing with default `0`, used only where the Python index is
in bounds by construction of the loop. -/
def nthD (l : List Int) (i : Nat) : Int := (l.get? i).getD 0

/-- Python list indexing `l[j]` for a possibly negative index: negative
indices count from the end; out-of-range access is an error (`none`). -/
def pyIdx (l : List Int) (j : Int) : Option Int :=
  if 0 ≤ j then l.get? j.toNat
  else if 0 ≤ j + l.length then l.get? (j + l.length).toNat
  else none

/-- Python `int(x)` on a float: truncation toward zero. -/
def pyInt (q : ℚ) : Int := if 0 ≤ q then ⌊q⌋ else ⌈q⌉

/-- Cast an integer-valued signal to a rational-valued one. -/
def toQ (s : Sig Int) : Sig ℚ := s.map (fun p => (p.1, (p.2 : ℚ)))

/-- `mapM` over the `Option` monad, written recursively so that proofs can
proceed by structural induction. -/
def mapMO {α β : Type} (f : α → Option β) : List α → Option (List β)
  | [] => some []
  | x :: xs =>
    match f x, mapMO f xs with
    | some y, some ys => some (y :: ys)
    | _, _ => none

/-- Python `max(values)`: `none` on the empty collection, otherwise the
maximum. -/
def listMax : List Int → Option Int
  | [] => none
  | x :: xs => some (xs.foldl max x)

/-- Python `max(rises, key=lambda x: x[2])`: first element achieving the
maximal third component (Python's `max` keeps the earliest maximum). -/
def maxByAmount : List (Int × Int × ℚ) → Option (Int × Int × ℚ)
  | [] => none
  | x :: xs => some (xs.foldl (fun best y => if best.2.2 < y.2.2 then y else best) x)

/-- `class Direction(Enum)`. -/
inductive Direction : Type
  | UNKNOWN
  | A_TO_B
  | B_TO_A
deriving DecidableEq

/-- `@dataclass SensorReading`. -/
structure SensorReading : Type where
  timestamp : Int
  pcb_id : Int
  side : Int
  proximity : Int
deriving DecidableEq

/-- `@dataclass DetectionResult`. -/
structure DetectionResult : Type where
  direction : Direction
  confidence : ℚ
  peak_time_a : Option Int
  peak_time_b : Option Int
  peak_gap_ms : Option Int
  side_a_max : Int
  side_b_max : Int
deriving DecidableEq

/-- `@dataclass Config`. -/
structure Config : Type where
  smoothing_window : Nat
  min_rise : Int
  max_peak_gap_ms : Int
deriving DecidableEq

/-- The default configuration `Config()` (window 3, min_rise 10, gap 100). -/
def defaultConfig : Config := ⟨3, 10, 100⟩

/-- The all-empty `DetectionResult` returned on empty input. -/
def emptyResult : DetectionResult :=
  ⟨Direction.UNKNOWN, 0, none, none, none, 0, 0⟩

/-- One side's aggregated dict: for each timestamp occurring among the given
readings, the sum of their proximities (the dict built by `aggregate_by_side`,
in sorted-key representation). -/
def aggregate (rs : List SensorReading) : Sig Int :=
  (((rs.map (fun r => r.timestamp)).dedup).insertionSort (· ≤ ·)).map
    (fun t => (t, ((rs.filter (fun r => r.timestamp == t)).map (fun r => r.proximity)).sum))

/-- `aggregate_by_side`: side 2 readings feed side A, all others (side 1)
feed side B. -/
def aggregate_by_side (rs : List SensorReading) : Sig Int × Sig Int :=
  (aggregate (rs.filter (fun r => r.side == 2)),
   aggregate (rs.filter (fun r => !(r.side == 2))))

/-- One entry of `smooth_signal`: the trailing window
`timestamps[max(0, i-window+1) : i+1]` averaged; the empty slice (window = 0)
is Python's `ZeroDivisionError`. -/
def smoothAt (signal : Sig Int) (window : Nat) (i : Nat) (t : Int) : Option (Int × ℚ) :=
  let start_idx := i + 1 - window
  let window_values := ((signal.drop start_idx).take (i + 1 - start_idx)).map
    (fun p => (p.2 : ℚ))
  if window_values = [] then none
  else some (t, window_values.sum / (window_values.length : ℚ))

/-- `smooth_signal`: simple trailing moving average over the sorted keys. -/
def smooth_signal (signal : Sig Int) (window : Nat) : Option (Sig ℚ) :=
  mapMO (fun ip => smoothAt signal window ip.1 ip.2.1) signal.enum

/-- `compute_derivative`: first difference of consecutive smoothed values,
keyed by the later timestamp. -/
def compute_derivative (signal : Sig ℚ) : Sig ℚ :=
  (signal.zip signal.tail).map (fun pq => (pq.2.1, pq.2.2 - pq.1.2))

/-- The mutable state of the `find_rise_start_times` loop. -/
structure RiseState : Type where
  rise_start_ts : Option Int
  rise_start_value : ℚ
  consecutive_positive : Nat
  rises : List (Int × Int × ℚ)
deriving DecidableEq

/-- First half of one `find_rise_start_times` iteration: the
`if curr_d > derivative_threshold` block, returning the updated
`(rise_start_ts, rise_start_value, consecutive_positive)` triple ('none` is a
Python `IndexError` on `timestamps[i - consecutive_positive]`). -/
def risePhase1 (signal : Sig ℚ) (T : List Int) (θ : ℚ) (st : RiseState) (i : Nat)
    (curr_d : ℚ) : Option (Option Int × ℚ × Nat) :=
  if θ < curr_d then
    if 2 ≤ st.consecutive_positive + 1 ∧ st.rise_start_ts = none then
      match pyIdx T ((i : Int) - ((st.consecutive_positive + 1 : Nat) : Int)) with
      | some ts => some (some ts, lookupD signal ts 0, st.consecutive_positive + 1)
      | none => none
    else some (st.rise_start_ts, st.rise_start_value, st.consecutive_positive + 1)
  else some (st.rise_start_ts, st.rise_start_value, 0)

/-- Second half of one `find_rise_start_times` iteration: the peak-detection
block (`prev_d > 0 and curr_d <= 0 and rise_start_ts is not None`). -/
def risePhase2 (signal : Sig ℚ) (min_rise : ℚ) (st : RiseState) (prev_ts : Int)
    (prev_d curr_d : ℚ) (rst : Option Int) (rsv : ℚ) (cp : Nat) : RiseState :=
  if 0 < prev_d ∧ curr_d ≤ 0 then
    match rst with
    | some s =>
      ⟨none, rsv, cp,
        if min_rise ≤ lookupD signal prev_ts 0 - rsv then
          st.rises ++ [(s, prev_ts, lookupD signal prev_ts 0 - rsv)]
        else st.rises⟩
    | none => ⟨none, rsv, cp, st.rises⟩
  else ⟨rst, rsv, cp, st.rises⟩

/-- One iteration (loop index `i`) of the `find_rise_start_times` loop. -/
def riseStep (signal derivative : Sig ℚ) (T : List Int) (min_rise θ : ℚ)
    (st : RiseState) (i : Nat) : Option RiseState :=
  match risePhase1 signal T θ st i (lookupD derivative (nthD T i) 0) with
  | none => none
  | some (rst, rsv, cp) =>
    some (risePhase2 signal min_rise st (nthD T (i - 1))
      (lookupD derivative (nthD T (i - 1)) 0) (lookupD derivative (nthD T i) 0)
      rst rsv cp)

/-- The `for i in range(...)` loop of `find_rise_start_times`, running `k`
iterations starting at index `i`. -/
def riseLoop (signal derivative : Sig ℚ) (T : List Int) (min_rise θ : ℚ) :
    RiseState → Nat → Nat → Option RiseState
  | st, _, 0 => some st
  | st, i, Nat.succ k =>
    match riseStep signal derivative T min_rise θ st i with
    | none => none
    | some st2 => riseLoop signal derivative T min_rise θ st2 (i + 1) k

/-- `find_rise_start_times(signal, derivative, min_rise, threshold)`. -/
def find_rise_start_times (signal derivative : Sig ℚ) (min_rise θ : ℚ) :
    Option (List (Int × Int × ℚ)) :=
  let timestamps := sigKeys derivative
  match riseLoop signal derivative timestamps min_rise θ ⟨none, 0, 0, []⟩ 1
      (timestamps.length - 1) with
  | some st => some st.rises
  | none => none

/-- `calculate_center_of_mass(signal, min_value)`: the loop's two accumulators
written as sums over the entries. -/
def calculate_center_of_mass (signal : Sig ℚ) (min_value : ℚ) : Option ℚ :=
  let total_weight := (signal.map (fun p => if min_value < p.2 then p.2 - min_value else 0)).sum
  let weighted_sum := (signal.map
    (fun p => if min_value < p.2 then (p.1 : ℚ) * (p.2 - min_value) else 0)).sum
  if total_weight < 10 then none
  else some (weighted_sum / total_weight)

/-- `int(com) if com else ...` with a `None` alternative: Python treats both
`None` and `0.0` as falsy. -/
def truthyInt : Option ℚ → Option Int
  | some q => if q = 0 then none else some (pyInt q)
  | none => none

/-- The body of `analyze_window` from the side aggregation on (the wrapper
below supplies `aggregate_by_side`'s two signals). -/
def analyze_window_core (side_a side_b : Sig Int) (config : Config) :
    Option DetectionResult :=
  if side_a = [] ∨ side_b = [] then some emptyResult else
  match smooth_signal side_a config.smoothing_window,
        smooth_signal side_b config.smoothing_window with
  | some side_a_smooth, some side_b_smooth =>
    let d_a := compute_derivative side_a_smooth
    let d_b := compute_derivative side_b_smooth
    match listMax (side_a.map Prod.snd), listMax (side_b.map Prod.snd) with
    | some side_a_max, some side_b_max =>
      if d_a = [] ∨ d_b = [] then
        some ⟨Direction.UNKNOWN, 0, none, none, none, side_a_max, side_b_max⟩
      else
        match find_rise_start_times side_a_smooth d_a (config.min_rise : ℚ) 2,
              find_rise_start_times side_b_smooth d_b (config.min_rise : ℚ) 2 with
        | some rises_a, some rises_b =>
          if rises_a = [] ∨ rises_b = [] then
            some ⟨Direction.UNKNOWN, 0, none, none, none, side_a_max, side_b_max⟩
          else
            match maxByAmount rises_a, maxByAmount rises_b with
            | some main_rise_a, some main_rise_b =>
              let rise_start_a := main_rise_a.1
              let peak_a := main_rise_a.2.1
              let rise_amount_a := main_rise_a.2.2
              let rise_start_b := main_rise_b.1
              let peak_b := main_rise_b.2.1
              let rise_amount_b := main_rise_b.2.2
              let peak_gap := |peak_a - peak_b|
              if config.max_peak_gap_ms < peak_gap then
                some ⟨Direction.UNKNOWN, 0, some peak_a, some peak_b, some peak_gap,
                  side_a_max, side_b_max⟩
              else
                let rise_gap := |rise_start_a - rise_start_b|
                let direction :=
                  if rise_start_a < rise_start_b then Direction.A_TO_B
                  else if rise_start_b < rise_start_a then Direction.B_TO_A
                  else if peak_a < peak_b then Direction.A_TO_B
                  else Direction.B_TO_A
                let gap_confidence := min 1 ((rise_gap : ℚ) / 50)
                let signal_confidence := min 1 ((rise_amount_a + rise_amount_b) / 100)
                let confidence := (gap_confidence + signal_confidence) / 2
                some ⟨direction, confidence, some rise_start_a, some rise_start_b,
                  some rise_gap, side_a_max, side_b_max⟩
            | _, _ => none
        | _, _ => none
    | _, _ => none
  | _, _ => none

/-- `analyze_window(readings, config)`: the rise-start detector. -/
def analyze_window (readings : List SensorReading) (config : Config) :
    Option DetectionResult :=
  if readings = [] then some emptyResult else
  analyze_window_core (aggregate_by_side readings).1 (aggregate_by_side readings).2 config

/-- The body of `analyze_window_com` from the side aggregation on. -/
def analyze_window_com_core (side_a side_b : Sig Int) (config : Config) :
    Option DetectionResult :=
  if side_a = [] ∨ side_b = [] then some emptyResult else
  match listMax (side_a.map Prod.snd), listMax (side_b.map Prod.snd) with
  | some side_a_max, some side_b_max =>
    let com_a := calculate_center_of_mass (toQ side_a) ((config.min_rise : ℚ) / 2)
    let com_b := calculate_center_of_mass (toQ side_b) ((config.min_rise : ℚ) / 2)
    match com_a, com_b with
    | some ca, some cb =>
      let com_gap := |ca - cb|
      if side_a_max < config.min_rise ∨ side_b_max < config.min_rise then
        some ⟨Direction.UNKNOWN, 0, some (pyInt ca), some (pyInt cb),
          some (pyInt com_gap), side_a_max, side_b_max⟩
      else
        let direction := if ca < cb then Direction.A_TO_B else Direction.B_TO_A
        let gap_confidence := min 1 (com_gap / 30)
        let signal_confidence := min 1 (((side_a_max + side_b_max : Int) : ℚ) / 100)
        let confidence := (gap_confidence + signal_confidence) / 2
        some ⟨direction, confidence, some (pyInt ca), some (pyInt cb),
          some (pyInt com_gap), side_a_max, side_b_max⟩
    | ca, cb =>
      some ⟨Direction.UNKNOWN, 0, truthyInt ca, truthyInt cb, none,
        side_a_max, side_b_max⟩
  | _, _ => none

/-- `analyze_window_com(readings, config)`: the center-of-mass detector. -/
def analyze_window_com (readings : List SensorReading) (config : Config) :
    Option DetectionResult :=
  if readings = [] then some emptyResult else
  analyze_window_com_core (aggregate_by_side readings).1 (aggregate_by_side readings).2 config

/-- The body of `analyze_window_hybrid` from the side aggregation on. -/
def analyze_window_hybrid_core (side_a side_b : Sig Int) (config : Config) :
    Option DetectionResult :=
  if side_a = [] ∨ side_b = [] then some emptyResult else
  match listMax (side_a.map Prod.snd), listMax (side_b.map Prod.snd) with
  | some side_a_max, some side_b_max =>
    match smooth_signal side_a config.smoothing_window,
          smooth_signal side_b config.smoothing_window with
    | some side_a_smooth, some side_b_smooth =>
      let d_a := compute_derivative side_a_smooth
      let d_b := compute_derivative side_b_smooth
      if d_a = [] ∨ d_b = [] then
        some ⟨Direction.UNKNOWN, 0, none, none, none, side_a_max, side_b_max⟩
      else
        match find_rise_start_times side_a_smooth d_a (config.min_rise : ℚ) 2,
              find_rise_start_times side_b_smooth d_b (config.min_rise : ℚ) 2 with
        | some rises_a, some rises_b =>
          if rises_a = [] ∨ rises_b = [] then
            some ⟨Direction.UNKNOWN, 0, none, none, none, side_a_max, side_b_max⟩
          else
            match maxByAmount rises_a, maxByAmount rises_b with
            | some main_rise_a, some main_rise_b =>
              let peak_a := main_rise_a.2.1
              let peak_b := main_rise_b.2.1
              let peak_gap := |peak_a - peak_b|
              if config.max_peak_gap_ms < peak_gap then
                some ⟨Direction.UNKNOWN, 0, some peak_a, some peak_b, some peak_gap,
                  side_a_max, side_b_max⟩
              else
                let com_a := calculate_center_of_mass (toQ side_a) ((config.min_rise : ℚ) / 2)
                let com_b := calculate_center_of_mass (toQ side_b) ((config.min_rise : ℚ) / 2)
                let dirgap : Direction × ℚ :=
                  match com_a, com_b with
                  | some ca, some cb =>
                    (if ca < cb then Direction.A_TO_B else Direction.B_TO_A, |ca - cb|)
                  | _, _ =>
                    (if peak_a < peak_b then Direction.A_TO_B else Direction.B_TO_A,
                      ((|peak_a - peak_b| : Int) : ℚ))
                let direction := dirgap.1
                let com_gap := dirgap.2
                let gap_confidence := min 1 (com_gap / 30)
                let signal_confidence := min 1 (((side_a_max + side_b_max : Int) : ℚ) / 100)
                let confidence := (gap_confidence + signal_confidence) / 2
                let pta := match com_a with
                  | some q => if q = 0 then peak_a else pyInt q
                  | none => peak_a
                let ptb := match com_b with
                  | some q => if q = 0 then peak_b else pyInt q
                  | none => peak_b
                some ⟨direction, confidence, some pta, some ptb, some (pyInt com_gap),
                  side_a_max, side_b_max⟩
            | _, _ => none
        | _, _ => none
    | _, _ => none
  | _, _ => none

/-- `analyze_window_hybrid(readings, config)`: rise confirmation followed by
center-of-mass direction with peak-time fallback. -/
def analyze_window_hybrid (readings : List SensorReading) (config : Config) :
    Option DetectionResult :=
  if readings = [] then some emptyResult else
  analyze_window_hybrid_core (aggregate_by_side readings).1 (aggregate_by_side readings).2 config

/-- Swap the two side tags of one reading (1 ↔ 2, anything else unchanged). -/
def swapSide (r : SensorReading) : SensorReading :=
  { r with side := if r.side = 1 then 2 else if r.side = 2 then 1 else r.side }

/-! ## Helper lemmas about the generic combinators -/

theorem mapMO_eq_some_map {α β : Type} (f : α → Option β) (g : α → β) :
    ∀ l : List α, (∀ x ∈ l, f x = some (g x)) → mapMO f l = some (l.map g) := by
  intro l
  induction l with
  | nil => intro _; rfl
  | cons x xs ih =>
    intro h
    have hx : f x = some (g x) := h x (List.mem_cons_self x xs)
    have hxs : mapMO f xs = some (xs.map g) := ih (fun y hy => h y (List.mem_cons_of_mem x hy))
    simp [mapMO, hx, hxs]

theorem mapMO_get? {α β : Type} (f : α → Option β) :
    ∀ (l : List α) (l' : List β), mapMO f l = some l' →
      ∀ i : Nat, l'.get? i = (l.get? i).bind f := by
  intro l
  induction l with
  | nil =>
    intro l' h i
    simp [mapMO] at h
    subst h
    simp
  | cons x xs ih =>
    intro l' h i
    unfold mapMO at h
    cases hx : f x with
    | none => rw [hx] at h; simp at h
    | some y =>
      rw [hx] at h
      cases hxs : mapMO f xs with
      | none => rw [hxs] at h; simp at h
      | some ys =>
        rw [hxs] at h
        simp at h
        subst h
        cases i with
        | zero => simpa using hx.symm
        | succ j => simpa using ih ys hxs j

theorem mapMO_length {α β : Type} (f : α → Option β) (l : List α) (l' : List β)
    (h : mapMO f l = some l') : l'.length = l.length := by
  induction l generalizing l' with
  | nil => simp [mapMO] at h; simp [h.symm]
  | cons x xs ih =>
    unfold mapMO at h
    cases hx : f x with
    | none => rw [hx] at h; simp at h
    | some y =>
      rw [hx] at h
      cases hxs : mapMO f xs with
      | none => rw [hxs] at h; simp at h
      | some ys =>
        rw [hxs] at h
        simp at h
        subst h
        simp [ih ys hxs]

theorem foldl_max_mem (xs : List Int) : ∀ a : Int, xs.foldl max a = a ∨ xs.foldl max a ∈ xs := by
  induction xs with
  | nil => intro a; left; rfl
  | cons y ys ih =>
    intro a
    rcases ih (max a y) with h | h
    · rw [List.foldl_cons, h]
      rcases max_choice a y with hm | hm
      · left; exact hm
      · right; rw [hm]; exact List.mem_cons_self y ys
    · right
      rw [List.foldl_cons]
      exact List.mem_cons_of_mem y h

theorem le_foldl_max (xs : List Int) :
    ∀ a : Int, a ≤ xs.foldl max a ∧ ∀ x ∈ xs, x ≤ xs.foldl max a := by
  induction xs with
  | nil => intro a; exact ⟨le_refl a, by simp⟩
  | cons y ys ih =>
    intro a
    have h := ih (max a y)
    constructor
    · exact le_trans (le_max_left a y) h.1
    · intro x hx
      rcases List.mem_cons.mp hx with hx | hx
      · subst hx
        exact le_trans (le_max_right a x) h.1
      · exact h.2 x hx

theorem listMax_spec (l : List Int) (m : Int) (h : listMax l = some m) :
    m ∈ l ∧ ∀ x ∈ l, x ≤ m := by
  cases l with
  | nil => simp [listMax] at h
  | cons x xs =>
    simp only [listMax, Option.some.injEq] at h
    subst h
    constructor
    · rcases foldl_max_mem xs x with h | h
      · rw [h]; exact List.mem_cons_self x xs
      · exact List.mem_cons_of_mem x h
    · intro y hy
      rcases List.mem_cons.mp hy with hy | hy
      · subst hy; exact (le_foldl_max xs y).1
      · exact (le_foldl_max xs x).2 y hy

theorem listMax_isSome (l : List Int) (h : l ≠ []) : (listMax l).isSome := by
  cases l with
  | nil => exact absurd rfl h
  | cons x xs => simp [listMax]

theorem maxByAmount_isSome (l : List (Int × Int × ℚ)) (h : l ≠ []) :
    (maxByAmount l).isSome := by
  cases l with
  | nil => exact absurd rfl h
  | cons x xs => simp [maxByAmount]


/-! ## The rise-detection loop invariant -/

/-- The start of a recorded rise is a derivative timestamp followed by (at
least) two consecutive derivative samples exceeding the threshold. -/
def riseWitness (derivative : Sig ℚ) (T : List Int) (θ : ℚ) (s : Int) : Prop :=
  ∃ j : Nat, j + 2 < T.length ∧ s = nthD T j ∧
    θ < lookupD derivative (nthD T (j + 1)) 0 ∧
    θ < lookupD derivative (nthD T (j + 2)) 0

/-- The peak of a recorded rise is a derivative timestamp with positive
derivative whose successor's derivative is ≤ 0. -/
def peakWitness (derivative : Sig ℚ) (T : List Int) (p : Int) : Prop :=
  ∃ k : Nat, k + 1 < T.length ∧ p = nthD T k ∧
    0 < lookupD derivative (nthD T k) 0 ∧
    lookupD derivative (nthD T (k + 1)) 0 ≤ 0

/-- Everything `find_rise_start_times` guarantees about one recorded rise,
stated on positions of the derivative's timestamp list. -/
def GoodRise (derivative : Sig ℚ) (T : List Int) (min_rise θ : ℚ)
    (e : Int × Int × ℚ) : Prop :=
  min_rise ≤ e.2.2 ∧
  ∃ j k : Nat, j < k ∧ k + 1 < T.length ∧ e.1 = nthD T j ∧ e.2.1 = nthD T k ∧
    θ < lookupD derivative (nthD T (j + 1)) 0 ∧
    θ < lookupD derivative (nthD T (j + 2)) 0 ∧
    0 < lookupD derivative (nthD T k) 0 ∧
    lookupD derivative (nthD T (k + 1)) 0 ≤ 0

/-- Invariant of the `find_rise_start_times` loop at the entry of iteration
`i`. -/
structure LoopInv (derivative : Sig ℚ) (T : List Int) (min_rise θ : ℚ)
    (i : Nat) (st : RiseState) : Prop where
  cp_le : st.consecutive_positive + 1 ≤ i
  cp_pos : ∀ m : Nat, i - st.consecutive_positive ≤ m → m < i →
    θ < lookupD derivative (nthD T m) 0
  start_ok : ∀ s, st.rise_start_ts = some s →
    ∃ j : Nat, j + 2 ≤ i ∧ s = nthD T j ∧
      θ < lookupD derivative (nthD T (j + 1)) 0 ∧
      θ < lookupD derivative (nthD T (j + 2)) 0
  rises_ok : ∀ e ∈ st.rises, GoodRise derivative T min_rise θ e

/-- The intermediate facts holding for the triple produced by `risePhase1`
during iteration `i`. -/
def MidInv (derivative : Sig ℚ) (T : List Int) (θ : ℚ) (i : Nat)
    (rst : Option Int) (cp : Nat) : Prop :=
  cp ≤ i ∧
  (∀ m : Nat, i + 1 - cp ≤ m → m ≤ i → θ < lookupD derivative (nthD T m) 0) ∧
  (∀ s, rst = some s → ∃ j : Nat, j + 2 ≤ i ∧ s = nthD T j ∧
    θ < lookupD derivative (nthD T (j + 1)) 0 ∧
    θ < lookupD derivative (nthD T (j + 2)) 0)

theorem pyIdx_nat (l : List Int) (j : Nat) (h : j < l.length) :
    pyIdx l (j : Int) = some (nthD l j) := by
  have h0 : (0 : Int) ≤ (j : Int) := Int.ofNat_nonneg j
  simp only [pyIdx, if_pos h0, Int.toNat_ofNat, nthD]
  rw [List.get?_eq_get h]
  rfl

theorem risePhase1_spec (signal derivative : Sig ℚ) (T : List Int)
    (min_rise θ : ℚ) (st : RiseState) (i : Nat) (h1 : 1 ≤ i) (h2 : i < T.length)
    (hinv : LoopInv derivative T min_rise θ i st) :
    ∃ rst rsv cp,
      risePhase1 signal T θ st i (lookupD derivative (nthD T i) 0) =
        some (rst, rsv, cp) ∧ MidInv derivative T θ i rst cp := by
  obtain ⟨cp_le, cp_pos, start_ok, rises_ok⟩ := hinv
  by_cases hθ : θ < lookupD derivative (nthD T i) 0
  · by_cases hset : 2 ≤ st.consecutive_positive + 1 ∧ st.rise_start_ts = none
    · have hcp1 : 1 ≤ st.consecutive_positive := by omega
      have hj : i - (st.consecutive_positive + 1) < T.length := by omega
      have hcast : (i : Int) - ((st.consecutive_positive + 1 : Nat) : Int) =
          ((i - (st.consecutive_positive + 1) : Nat) : Int) := by omega
      refine ⟨some (nthD T (i - (st.consecutive_positive + 1))),
        lookupD signal (nthD T (i - (st.consecutive_positive + 1))) 0,
        st.consecutive_positive + 1, ?_, ?_, ?_, ?_⟩
      · simp only [risePhase1, if_pos hθ, if_pos hset, hcast, pyIdx_nat T _ hj]
      · exact cp_le
      · intro m hm1 hm2
        rcases Nat.lt_or_ge m i with hmi | hmi
        · exact cp_pos m (by omega) hmi
        · have hmi' : m = i := by omega
          rw [hmi']; exact hθ
      · intro s hs
        have hs' : s = nthD T (i - (st.consecutive_positive + 1)) :=
          (Option.some_inj.mp hs).symm
        refine ⟨i - (st.consecutive_positive + 1), by omega, hs', ?_, ?_⟩
        · have hm : i - (st.consecutive_positive + 1) + 1 = i - st.consecutive_positive := by
            omega
          rw [hm]
          exact cp_pos _ (by omega) (by omega)
        · rcases Nat.lt_or_ge (i - (st.consecutive_positive + 1) + 2) i with hlt | hge
          · exact cp_pos _ (by omega) hlt
          · have hm : i - (st.consecutive_positive + 1) + 2 = i := by omega
            rw [hm]; exact hθ
    · refine ⟨st.rise_start_ts, st.rise_start_value, st.consecutive_positive + 1,
        ?_, ?_, ?_, ?_⟩
      · simp only [risePhase1, if_pos hθ, if_neg hset]
      · exact cp_le
      · intro m hm1 hm2
        rcases Nat.lt_or_ge m i with hmi | hmi
        · exact cp_pos m (by omega) hmi
        · have hmi' : m = i := by omega
          rw [hmi']; exact hθ
      · intro s hs
        exact start_ok s hs
  · refine ⟨st.rise_start_ts, st.rise_start_value, 0, ?_, ?_, ?_, ?_⟩
    · simp only [risePhase1, if_neg hθ]
    · omega
    · intro m hm1 hm2; omega
    · intro s hs
      exact start_ok s hs

theorem risePhase2_spec (signal derivative : Sig ℚ) (T : List Int)
    (min_rise θ : ℚ) (st : RiseState) (i : Nat) (rst : Option Int) (rsv : ℚ)
    (cp : Nat) (h1 : 1 ≤ i) (h2 : i < T.length)
    (hmid : MidInv derivative T θ i rst cp)
    (hrises : ∀ e ∈ st.rises, GoodRise derivative T min_rise θ e) :
    LoopInv derivative T min_rise θ (i + 1)
      (risePhase2 signal min_rise st (nthD T (i - 1))
        (lookupD derivative (nthD T (i - 1)) 0) (lookupD derivative (nthD T i) 0)
        rst rsv cp) := by
  obtain ⟨hcp, hpos, hstart⟩ := hmid
  have hi1 : i - 1 + 1 = i := by omega
  by_cases hpk : 0 < lookupD derivative (nthD T (i - 1)) 0 ∧
      lookupD derivative (nthD T i) 0 ≤ 0
  · cases rst with
    | some s =>
      obtain ⟨j, hji, hsj, hw1, hw2⟩ := hstart s rfl
      have heq : risePhase2 signal min_rise st (nthD T (i - 1))
          (lookupD derivative (nthD T (i - 1)) 0) (lookupD derivative (nthD T i) 0)
          (some s) rsv cp =
          ⟨none, rsv, cp,
            if min_rise ≤ lookupD signal (nthD T (i - 1)) 0 - rsv then
              st.rises ++ [(s, nthD T (i - 1), lookupD signal (nthD T (i - 1)) 0 - rsv)]
            else st.rises⟩ := by
        simp only [risePhase2, if_pos hpk]
      rw [heq]
      refine ⟨?_, ?_, ?_, ?_⟩
      · show cp + 1 ≤ i + 1
        omega
      · show ∀ m : Nat, i + 1 - cp ≤ m → m < i + 1 → θ < lookupD derivative (nthD T m) 0
        intro m hm1 hm2
        exact hpos m (by omega) (by omega)
      · show ∀ s', (none : Option Int) = some s' → _
        intro s' hs'
        simp at hs'
      · show ∀ e ∈ (if min_rise ≤ lookupD signal (nthD T (i - 1)) 0 - rsv then
            st.rises ++ [(s, nthD T (i - 1), lookupD signal (nthD T (i - 1)) 0 - rsv)]
            else st.rises), GoodRise derivative T min_rise θ e
        intro e he
        by_cases hamt : min_rise ≤ lookupD signal (nthD T (i - 1)) 0 - rsv
        · rw [if_pos hamt] at he
          rcases List.mem_append.mp he with he | he
          · exact hrises e he
          · have he' : e = (s, nthD T (i - 1), lookupD signal (nthD T (i - 1)) 0 - rsv) :=
              List.mem_singleton.mp he
            subst he'
            refine ⟨hamt, j, i - 1, by omega, by omega, hsj, rfl, hw1, hw2, hpk.1, ?_⟩
            rw [hi1]; exact hpk.2
        · rw [if_neg hamt] at he
          exact hrises e he
    | none =>
      have heq : risePhase2 signal min_rise st (nthD T (i - 1))
          (lookupD derivative (nthD T (i - 1)) 0) (lookupD derivative (nthD T i) 0)
          none rsv cp = ⟨none, rsv, cp, st.rises⟩ := by
        simp only [risePhase2, if_pos hpk]
      rw [heq]
      refine ⟨?_, ?_, ?_, ?_⟩
      · show cp + 1 ≤ i + 1
        omega
      · show ∀ m : Nat, i + 1 - cp ≤ m → m < i + 1 → θ < lookupD derivative (nthD T m) 0
        intro m hm1 hm2
        exact hpos m (by omega) (by omega)
      · show ∀ s', (none : Option Int) = some s' → _
        intro s' hs'
        simp at hs'
      · exact hrises
  · have heq : risePhase2 signal min_rise st (nthD T (i - 1))
        (lookupD derivative (nthD T (i - 1)) 0) (lookupD derivative (nthD T i) 0)
        rst rsv cp = ⟨rst, rsv, cp, st.rises⟩ := by
      simp only [risePhase2, if_neg hpk]
    rw [heq]
    refine ⟨?_, ?_, ?_, ?_⟩
    · show cp + 1 ≤ i + 1
      omega
    · show ∀ m : Nat, i + 1 - cp ≤ m → m < i + 1 → θ < lookupD derivative (nthD T m) 0
      intro m hm1 hm2
      exact hpos m (by omega) (by omega)
    · show ∀ s, rst = some s → ∃ j : Nat, j + 2 ≤ i + 1 ∧ s = nthD T j ∧
        θ < lookupD derivative (nthD T (j + 1)) 0 ∧
        θ < lookupD derivative (nthD T (j + 2)) 0
      intro s hs
      obtain ⟨j, hji, hsj, hw1, hw2⟩ := hstart s hs
      exact ⟨j, by omega, hsj, hw1, hw2⟩
    · exact hrises

theorem riseStep_inv (signal derivative : Sig ℚ) (T : List Int)
    (min_rise θ : ℚ) (st : RiseState) (i : Nat) (h1 : 1 ≤ i) (h2 : i < T.length)
    (hinv : LoopInv derivative T min_rise θ i st) :
    ∃ st', riseStep signal derivative T min_rise θ st i = some st' ∧
      LoopInv derivative T min_rise θ (i + 1) st' := by
  obtain ⟨rst, rsv, cp, hout, hmid⟩ :=
    risePhase1_spec signal derivative T min_rise θ st i h1 h2 hinv
  refine ⟨_, ?_, risePhase2_spec signal derivative T min_rise θ st i rst rsv cp
    h1 h2 hmid hinv.rises_ok⟩
  simp only [riseStep, hout]

theorem riseLoop_inv (signal derivative : Sig ℚ) (T : List Int)
    (min_rise θ : ℚ) :
    ∀ (k i : Nat) (st : RiseState), 1 ≤ i → (k ≠ 0 → i + k ≤ T.length) →
      LoopInv derivative T min_rise θ i st →
      ∃ st', riseLoop signal derivative T min_rise θ st i k = some st' ∧
        LoopInv derivative T min_rise θ (i + k) st' := by
  intro k
  induction k with
  | zero =>
    intro i st h1 _ hinv
    exact ⟨st, rfl, hinv⟩
  | succ k ih =>
    intro i st h1 hk hinv
    have h2 : i < T.length := by
      have := hk (Nat.succ_ne_zero k); omega
    obtain ⟨st2, hstep, hinv2⟩ :=
      riseStep_inv signal derivative T min_rise θ st i h1 h2 hinv
    obtain ⟨st', hloop, hinv'⟩ := ih (i + 1) st2 (by omega)
      (fun hk0 => by have := hk (Nat.succ_ne_zero k); omega) hinv2
    refine ⟨st', ?_, ?_⟩
    · simp only [riseLoop, hstep, hloop]
    · have harith : i + 1 + k = i + (k + 1) := by omega
      rw [harith] at hinv'
      exact hinv'

/-- The initial state satisfies the loop invariant at `i = 1`. -/
theorem loopInv_init (derivative : Sig ℚ) (T : List Int) (min_rise θ : ℚ) :
    LoopInv derivative T min_rise θ 1 ⟨none, 0, 0, []⟩ := by
  refine ⟨?_, ?_, ?_, ?_⟩
  · show 0 + 1 ≤ 1
    omega
  · show ∀ m : Nat, 1 - 0 ≤ m → m < 1 → θ < lookupD derivative (nthD T m) 0
    intro m hm1 hm2; omega
  · show ∀ s, (none : Option Int) = some s → _
    intro s hs; simp at hs
  · show ∀ e ∈ ([] : List (Int × Int × ℚ)), GoodRise derivative T min_rise θ e
    intro e he; simp at he

theorem find_rise_isSome (signal derivative : Sig ℚ) (min_rise θ : ℚ) :
    (find_rise_start_times signal derivative min_rise θ).isSome := by
  obtain ⟨st', hloop, _⟩ := riseLoop_inv signal derivative (sigKeys derivative)
    min_rise θ ((sigKeys derivative).length - 1) 1 ⟨none, 0, 0, []⟩ (by omega)
    (by omega) (loopInv_init _ _ _ _)
  simp only [find_rise_start_times]
  rw [hloop]
  rfl

theorem find_rise_good (signal derivative : Sig ℚ) (min_rise θ : ℚ)
    (rises : List (Int × Int × ℚ))
    (h : find_rise_start_times signal derivative min_rise θ = some rises) :
    ∀ e ∈ rises, GoodRise derivative (sigKeys derivative) min_rise θ e := by
  obtain ⟨st', hloop, hinv⟩ := riseLoop_inv signal derivative (sigKeys derivative)
    min_rise θ ((sigKeys derivative).length - 1) 1 ⟨none, 0, 0, []⟩ (by omega)
    (by omega) (loopInv_init _ _ _ _)
  simp only [find_rise_start_times] at h
  rw [hloop] at h
  have hr : rises = st'.rises := (Option.some_inj.mp h).symm
  rw [hr]
  exact hinv.rises_ok

theorem nthD_lt_nthD (T : List Int) (hs : T.Sorted (· < ·)) (j k : Nat)
    (hjk : j < k) (hk : k < T.length) : nthD T j < nthD T k := by
  have hj : j < T.length := lt_trans hjk hk
  rw [nthD, List.get?_eq_get hj, nthD, List.get?_eq_get hk]
  exact List.pairwise_iff_get.mp hs ⟨j, hj⟩ ⟨k, hk⟩ hjk

/-! ## Smoothing lemmas -/

/-- The value at index `j` of an integer signal, as a rational (0 beyond the
end). -/
def valAtQ (s : Sig Int) (j : Nat) : ℚ := ((s.get? j).map (fun p => (p.2 : ℚ))).getD 0

/-- The trailing-window average computed by `smooth_signal` at index `i`. -/
def smoothVal (signal : Sig Int) (window : Nat) (i : Nat) : ℚ :=
  let ws := ((signal.drop (i + 1 - window)).take (i + 1 - (i + 1 - window))).map
    (fun p => (p.2 : ℚ))
  ws.sum / (ws.length : ℚ)

theorem smoothAt_eq_some (signal : Sig Int) (window i : Nat) (t : Int)
    (hw : 1 ≤ window) (hi : i < signal.length) :
    smoothAt signal window i t = some (t, smoothVal signal window i) := by
  have hlen : (((signal.drop (i + 1 - window)).take (i + 1 - (i + 1 - window))).map
      (fun p => (p.2 : ℚ))).length = i + 1 - (i + 1 - window) := by
    rw [List.length_map, List.length_take, List.length_drop]
    omega
  have hne : ((signal.drop (i + 1 - window)).take (i + 1 - (i + 1 - window))).map
      (fun p => (p.2 : ℚ)) ≠ [] := by
    intro hc
    rw [hc] at hlen
    simp at hlen
    omega
  simp only [smoothAt, smoothVal, if_neg hne]

theorem fst_lt_of_mem_enum {α : Type} (l : List α) (ip : Nat × α)
    (h : ip ∈ l.enum) : ip.1 < l.length := by
  rw [List.enum_eq_zip_range] at h
  have hm : (ip.1, ip.2) ∈ (List.range l.length).zip l := by simpa using h
  exact List.mem_range.mp (List.of_mem_zip hm).1

theorem smooth_signal_eq (signal : Sig Int) (window : Nat) (hw : 1 ≤ window) :
    smooth_signal signal window =
      some (signal.enum.map (fun ip => (ip.2.1, smoothVal signal window ip.1))) := by
  apply mapMO_eq_some_map
  intro ip hip
  exact smoothAt_eq_some signal window ip.1 ip.2.1 hw (fst_lt_of_mem_enum signal ip hip)

theorem smooth_signal_isSome (signal : Sig Int) (window : Nat) (hw : 1 ≤ window) :
    (smooth_signal signal window).isSome := by
  rw [smooth_signal_eq signal window hw]
  rfl

theorem smooth_window_zero (signal : Sig Int) (out : Sig ℚ)
    (h : smooth_signal signal 0 = some out) : signal = [] := by
  cases signal with
  | nil => rfl
  | cons p ps =>
    exfalso
    have : smoothAt (p :: ps) 0 0 p.1 = none := by
      simp [smoothAt]
    simp only [smooth_signal, List.enum, mapMO, List.enumFrom] at h
    rw [this] at h
    simp at h

theorem sigKeys_enum_map {β : Type} (signal : Sig Int)
    (g : Nat × (Int × Int) → β) (key : Nat × (Int × Int) → Int)
    (hkey : ∀ ip, key ip = ip.2.1) :
    (signal.enum.map (fun ip => (key ip, g ip))).map Prod.fst = sigKeys signal := by
  rw [List.map_map, sigKeys]
  have h1 : (Prod.fst ∘ fun ip => (key ip, g ip)) = fun ip : Nat × (Int × Int) => ip.2.1 := by
    funext ip
    simp [hkey]
  rw [h1]
  have h2 : (fun ip : Nat × (Int × Int) => ip.2.1) =
      (Prod.fst ∘ Prod.snd : Nat × (Int × Int) → Int) := rfl
  rw [h2, ← List.map_map, List.enum_map_snd]

theorem smooth_keys (signal : Sig Int) (window : Nat) (out : Sig ℚ)
    (h : smooth_signal signal window = some out) : sigKeys out = sigKeys signal := by
  cases window with
  | zero =>
    have hnil := smooth_window_zero signal out h
    subst hnil
    simp only [smooth_signal, List.enum, List.enumFrom, mapMO] at h
    have : out = [] := (Option.some_inj.mp h).symm
    rw [this]
    rfl
  | succ w =>
    rw [smooth_signal_eq signal (w + 1) (Nat.succ_le_succ (Nat.zero_le w))] at h
    have : out = signal.enum.map (fun ip => (ip.2.1, smoothVal signal (w + 1) ip.1)) :=
      (Option.some_inj.mp h).symm
    rw [this, sigKeys]
    exact sigKeys_enum_map signal (fun ip => smoothVal signal (w + 1) ip.1)
      (fun ip => ip.2.1) (fun ip => rfl)

/-! ## Derivative lemmas -/

theorem sigKeys_compute_derivative (s : Sig ℚ) :
    sigKeys (compute_derivative s) = (sigKeys s).tail := by
  rw [compute_derivative, sigKeys, List.map_map]
  have h1 : (Prod.fst ∘ fun pq : (Int × ℚ) × Int × ℚ => (pq.2.1, pq.2.2 - pq.1.2)) =
      (Prod.fst ∘ Prod.snd : (Int × ℚ) × Int × ℚ → Int) := rfl
  rw [h1, ← List.map_map, List.map_snd_zip s s.tail (List.length_tail s ▸ by omega),
    sigKeys, List.map_tail]

/-! ## Aggregation lemmas -/

theorem aggregate_map_swapSide (rs : List SensorReading) :
    aggregate (rs.map swapSide) = aggregate rs := by
  unfold aggregate
  have h1 : (rs.map swapSide).map (fun r => r.timestamp) =
      rs.map (fun r => r.timestamp) := by
    rw [List.map_map]; rfl
  rw [h1]
  have h2 : (fun t : Int =>
      (t, (((rs.map swapSide).filter (fun r => r.timestamp == t)).map
        (fun r => r.proximity)).sum)) =
      (fun t : Int =>
      (t, ((rs.filter (fun r => r.timestamp == t)).map (fun r => r.proximity)).sum)) := by
    funext t
    rw [List.filter_map]
    have hp : ((fun r : SensorReading => r.timestamp == t) ∘ swapSide) =
        (fun r : SensorReading => r.timestamp == t) := rfl
    rw [hp, List.map_map]
    rfl
  rw [h2]

theorem filter_swap_side2 (rs : List SensorReading)
    (hs : ∀ r ∈ rs, r.side = 1 ∨ r.side = 2) :
    (rs.map swapSide).filter (fun r => r.side == 2) =
      (rs.filter (fun r => !(r.side == 2))).map swapSide := by
  induction rs with
  | nil => rfl
  | cons r rs ih =>
    have hrest : ∀ x ∈ rs, x.side = 1 ∨ x.side = 2 :=
      fun x hx => hs x (List.mem_cons_of_mem r hx)
    rcases hs r (List.mem_cons_self r rs) with h1 | h2
    · simp [swapSide, h1, ih hrest]
    · simp [swapSide, h2, ih hrest]

theorem filter_swap_not2 (rs : List SensorReading)
    (hs : ∀ r ∈ rs, r.side = 1 ∨ r.side = 2) :
    (rs.map swapSide).filter (fun r => !(r.side == 2)) =
      (rs.filter (fun r => r.side == 2)).map swapSide := by
  induction rs with
  | nil => rfl
  | cons r rs ih =>
    have hrest : ∀ x ∈ rs, x.side = 1 ∨ x.side = 2 :=
      fun x hx => hs x (List.mem_cons_of_mem r hx)
    rcases hs r (List.mem_cons_self r rs) with h1 | h2
    · simp [swapSide, h1, ih hrest]
    · simp [swapSide, h2, ih hrest]

theorem aggregate_by_side_swap (rs : List SensorReading)
    (hs : ∀ r ∈ rs, r.side = 1 ∨ r.side = 2) :
    aggregate_by_side (rs.map swapSide) =
      ((aggregate_by_side rs).2, (aggregate_by_side rs).1) := by
  unfold aggregate_by_side
  rw [filter_swap_side2 rs hs, filter_swap_not2 rs hs,
    aggregate_map_swapSide, aggregate_map_swapSide]

theorem aggregate_value_nonneg (rs : List SensorReading)
    (hp : ∀ r ∈ rs, 0 ≤ r.proximity) : ∀ p ∈ aggregate rs, 0 ≤ p.2 := by
  intro p hmem
  unfold aggregate at hmem
  obtain ⟨t, -, hpt⟩ := List.mem_map.mp hmem
  rw [← hpt]
  apply List.sum_nonneg
  intro v hv
  obtain ⟨r, hr, hrv⟩ := List.mem_map.mp hv
  rw [← hrv]
  exact hp r (List.mem_of_mem_filter hr)

theorem aggregate_nil : aggregate [] = [] := rfl

/-! ## Inversion lemmas for the detector cores -/

/-- Complete case analysis of `analyze_window_core`'s return paths. -/
theorem analyze_window_core_cases (A B : Sig Int) (cfg : Config)
    (r : DetectionResult) (h : analyze_window_core A B cfg = some r) :
    ((A = [] ∨ B = []) ∧ r = emptyResult) ∨
    (¬(A = [] ∨ B = []) ∧
      ∃ sa sb ma mb,
        smooth_signal A cfg.smoothing_window = some sa ∧
        smooth_signal B cfg.smoothing_window = some sb ∧
        listMax (A.map Prod.snd) = some ma ∧
        listMax (B.map Prod.snd) = some mb ∧
        (((compute_derivative sa = [] ∨ compute_derivative sb = []) ∧
            r = ⟨Direction.UNKNOWN, 0, none, none, none, ma, mb⟩) ∨
          (¬(compute_derivative sa = [] ∨ compute_derivative sb = []) ∧
            ∃ ra rb,
              find_rise_start_times sa (compute_derivative sa) (cfg.min_rise : ℚ) 2 =
                some ra ∧
              find_rise_start_times sb (compute_derivative sb) (cfg.min_rise : ℚ) 2 =
                some rb ∧
              (((ra = [] ∨ rb = []) ∧
                  r = ⟨Direction.UNKNOWN, 0, none, none, none, ma, mb⟩) ∨
                (¬(ra = [] ∨ rb = []) ∧
                  ∃ mra mrb, maxByAmount ra = some mra ∧ maxByAmount rb = some mrb ∧
                    ((cfg.max_peak_gap_ms < |mra.2.1 - mrb.2.1| ∧
                        r = ⟨Direction.UNKNOWN, 0, some mra.2.1, some mrb.2.1,
                          some |mra.2.1 - mrb.2.1|, ma, mb⟩) ∨
                      (¬(cfg.max_peak_gap_ms < |mra.2.1 - mrb.2.1|) ∧
                        r = ⟨(if mra.1 < mrb.1 then Direction.A_TO_B
                              else if mrb.1 < mra.1 then Direction.B_TO_A
                              else if mra.2.1 < mrb.2.1 then Direction.A_TO_B
                              else Direction.B_TO_A),
                             (min 1 (((|mra.1 - mrb.1| : Int) : ℚ) / 50) +
                               min 1 ((mra.2.2 + mrb.2.2) / 100)) / 2,
                             some mra.1, some mrb.1, some |mra.1 - mrb.1|,
                             ma, mb⟩))))))) := by
  unfold analyze_window_core at h
  by_cases hAB : A = [] ∨ B = []
  · rw [if_pos hAB] at h
    exact Or.inl ⟨hAB, (Option.some_inj.mp h).symm⟩
  · rw [if_neg hAB] at h
    refine Or.inr ⟨hAB, ?_⟩
    cases hsa : smooth_signal A cfg.smoothing_window with
    | none => rw [hsa] at h; cases hsb : smooth_signal B cfg.smoothing_window <;>
        rw [hsb] at h <;> simp at h
    | some sa =>
      rw [hsa] at h
      cases hsb : smooth_signal B cfg.smoothing_window with
      | none => rw [hsb] at h; simp at h
      | some sb =>
        rw [hsb] at h
        simp only at h
        cases hma : listMax (A.map Prod.snd) with
        | none => rw [hma] at h; cases hmb : listMax (B.map Prod.snd) <;>
            rw [hmb] at h <;> simp at h
        | some ma =>
          rw [hma] at h
          cases hmb : listMax (B.map Prod.snd) with
          | none => rw [hmb] at h; simp at h
          | some mb =>
            rw [hmb] at h
            simp only at h
            refine ⟨sa, sb, ma, mb, rfl, rfl, rfl, rfl, ?_⟩
            by_cases hd : compute_derivative sa = [] ∨ compute_derivative sb = []
            · rw [if_pos hd] at h
              exact Or.inl ⟨hd, (Option.some_inj.mp h).symm⟩
            · rw [if_neg hd] at h
              refine Or.inr ⟨hd, ?_⟩
              cases hra : find_rise_start_times sa (compute_derivative sa)
                  (cfg.min_rise : ℚ) 2 with
              | none => rw [hra] at h
                        cases hrb : find_rise_start_times sb (compute_derivative sb)
                            (cfg.min_rise : ℚ) 2 <;> rw [hrb] at h <;> simp at h
              | some ra =>
                rw [hra] at h
                cases hrb : find_rise_start_times sb (compute_derivative sb)
                    (cfg.min_rise : ℚ) 2 with
                | none => rw [hrb] at h; simp at h
                | some rb =>
                  rw [hrb] at h
                  simp only at h
                  refine ⟨ra, rb, rfl, rfl, ?_⟩
                  by_cases hre : ra = [] ∨ rb = []
                  · rw [if_pos hre] at h
                    exact Or.inl ⟨hre, (Option.some_inj.mp h).symm⟩
                  · rw [if_neg hre] at h
                    refine Or.inr ⟨hre, ?_⟩
                    cases hmra : maxByAmount ra with
                    | none => rw [hmra] at h
                              cases hmrb : maxByAmount rb <;> rw [hmrb] at h <;>
                                simp at h
                    | some mra =>
                      rw [hmra] at h
                      cases hmrb : maxByAmount rb with
                      | none => rw [hmrb] at h; simp at h
                      | some mrb =>
                        rw [hmrb] at h
                        simp only at h
                        refine ⟨mra, mrb, rfl, rfl, ?_⟩
                        by_cases hgap : cfg.max_peak_gap_ms < |mra.2.1 - mrb.2.1|
                        · rw [if_pos hgap] at h
                          exact Or.inl ⟨hgap, (Option.some_inj.mp h).symm⟩
                        · rw [if_neg hgap] at h
                          exact Or.inr ⟨hgap, (Option.some_inj.mp h).symm⟩

/-- Complete case analysis of `analyze_window_com_core`'s return paths. -/
theorem analyze_window_com_core_cases (A B : Sig Int) (cfg : Config)
    (r : DetectionResult) (h : analyze_window_com_core A B cfg = some r) :
    ((A = [] ∨ B = []) ∧ r = emptyResult) ∨
    (¬(A = [] ∨ B = []) ∧
      ∃ ma mb,
        listMax (A.map Prod.snd) = some ma ∧
        listMax (B.map Prod.snd) = some mb ∧
        ((∃ ca cb,
            calculate_center_of_mass (toQ A) ((cfg.min_rise : ℚ) / 2) = some ca ∧
            calculate_center_of_mass (toQ B) ((cfg.min_rise : ℚ) / 2) = some cb ∧
            (((ma < cfg.min_rise ∨ mb < cfg.min_rise) ∧
                r = ⟨Direction.UNKNOWN, 0, some (pyInt ca), some (pyInt cb),
                  some (pyInt |ca - cb|), ma, mb⟩) ∨
              (¬(ma < cfg.min_rise ∨ mb < cfg.min_rise) ∧
                r = ⟨(if ca < cb then Direction.A_TO_B else Direction.B_TO_A),
                  (min 1 (|ca - cb| / 30) + min 1 (((ma + mb : Int) : ℚ) / 100)) / 2,
                  some (pyInt ca), some (pyInt cb), some (pyInt |ca - cb|), ma, mb⟩))) ∨
          ((calculate_center_of_mass (toQ A) ((cfg.min_rise : ℚ) / 2) = none ∨
              calculate_center_of_mass (toQ B) ((cfg.min_rise : ℚ) / 2) = none) ∧
            r = ⟨Direction.UNKNOWN, 0,
              truthyInt (calculate_center_of_mass (toQ A) ((cfg.min_rise : ℚ) / 2)),
              truthyInt (calculate_center_of_mass (toQ B) ((cfg.min_rise : ℚ) / 2)),
              none, ma, mb⟩))) := by
  unfold analyze_window_com_core at h
  by_cases hAB : A = [] ∨ B = []
  · rw [if_pos hAB] at h
    exact Or.inl ⟨hAB, (Option.some_inj.mp h).symm⟩
  · rw [if_neg hAB] at h
    refine Or.inr ⟨hAB, ?_⟩
    cases hma : listMax (A.map Prod.snd) with
    | none => rw [hma] at h; cases hmb : listMax (B.map Prod.snd) <;>
        rw [hmb] at h <;> simp at h
    | some ma =>
      rw [hma] at h
      cases hmb : listMax (B.map Prod.snd) with
      | none => rw [hmb] at h; simp at h
      | some mb =>
        rw [hmb] at h
        simp only at h
        refine ⟨ma, mb, rfl, rfl, ?_⟩
        cases hca : calculate_center_of_mass (toQ A) ((cfg.min_rise : ℚ) / 2) with
        | none =>
          rw [hca] at h
          cases hcb : calculate_center_of_mass (toQ B) ((cfg.min_rise : ℚ) / 2) with
          | none =>
            rw [hcb] at h
            simp only at h
            exact Or.inr ⟨Or.inl rfl, (Option.some_inj.mp h).symm⟩
          | some cb =>
            rw [hcb] at h
            simp only at h
            exact Or.inr ⟨Or.inl rfl, (Option.some_inj.mp h).symm⟩
        | some ca =>
          rw [hca] at h
          cases hcb : calculate_center_of_mass (toQ B) ((cfg.min_rise : ℚ) / 2) with
          | none =>
            rw [hcb] at h
            simp only at h
            exact Or.inr ⟨Or.inr rfl, (Option.some_inj.mp h).symm⟩
          | some cb =>
            rw [hcb] at h
            simp only at h
            refine Or.inl ⟨ca, cb, rfl, rfl, ?_⟩
            by_cases hmr : ma < cfg.min_rise ∨ mb < cfg.min_rise
            · rw [if_pos hmr] at h
              exact Or.inl ⟨hmr, (Option.some_inj.mp h).symm⟩
            · rw [if_neg hmr] at h
              exact Or.inr ⟨hmr, (Option.some_inj.mp h).symm⟩

/-- Complete case analysis of `analyze_window_hybrid_core`'s return paths. -/
theorem analyze_window_hybrid_core_cases (A B : Sig Int) (cfg : Config)
    (r : DetectionResult) (h : analyze_window_hybrid_core A B cfg = some r) :
    ((A = [] ∨ B = []) ∧ r = emptyResult) ∨
    (¬(A = [] ∨ B = []) ∧
      ∃ ma mb sa sb,
        listMax (A.map Prod.snd) = some ma ∧
        listMax (B.map Prod.snd) = some mb ∧
        smooth_signal A cfg.smoothing_window = some sa ∧
        smooth_signal B cfg.smoothing_window = some sb ∧
        (((compute_derivative sa = [] ∨ compute_derivative sb = []) ∧
            r = ⟨Direction.UNKNOWN, 0, none, none, none, ma, mb⟩) ∨
          (¬(compute_derivative sa = [] ∨ compute_derivative sb = []) ∧
            ∃ ra rb,
              find_rise_start_times sa (compute_derivative sa) (cfg.min_rise : ℚ) 2 =
                some ra ∧
              find_rise_start_times sb (compute_derivative sb) (cfg.min_rise : ℚ) 2 =
                some rb ∧
              (((ra = [] ∨ rb = []) ∧
                  r = ⟨Direction.UNKNOWN, 0, none, none, none, ma, mb⟩) ∨
                (¬(ra = [] ∨ rb = []) ∧
                  ∃ mra mrb, maxByAmount ra = some mra ∧ maxByAmount rb = some mrb ∧
                    ((cfg.max_peak_gap_ms < |mra.2.1 - mrb.2.1| ∧
                        r = ⟨Direction.UNKNOWN, 0, some mra.2.1, some mrb.2.1,
                          some |mra.2.1 - mrb.2.1|, ma, mb⟩) ∨
                      (¬(cfg.max_peak_gap_ms < |mra.2.1 - mrb.2.1|) ∧
                        ((∃ ca cb,
                            calculate_center_of_mass (toQ A) ((cfg.min_rise : ℚ) / 2) =
                              some ca ∧
                            calculate_center_of_mass (toQ B) ((cfg.min_rise : ℚ) / 2) =
                              some cb ∧
                            r = ⟨(if ca < cb then Direction.A_TO_B else Direction.B_TO_A),
                              (min 1 (|ca - cb| / 30) +
                                min 1 (((ma + mb : Int) : ℚ) / 100)) / 2,
                              some (if ca = 0 then mra.2.1 else pyInt ca),
                              some (if cb = 0 then mrb.2.1 else pyInt cb),
                              some (pyInt |ca - cb|), ma, mb⟩) ∨
                          ((calculate_center_of_mass (toQ A) ((cfg.min_rise : ℚ) / 2) =
                              none ∨
                            calculate_center_of_mass (toQ B) ((cfg.min_rise : ℚ) / 2) =
                              none) ∧
                            r.direction =
                              (if mra.2.1 < mrb.2.1 then Direction.A_TO_B
                                else Direction.B_TO_A) ∧
                            r.confidence =
                              (min 1 (((|mra.2.1 - mrb.2.1| : Int) : ℚ) / 30) +
                                min 1 (((ma + mb : Int) : ℚ) / 100)) / 2 ∧
                            (r.peak_time_a = some mra.2.1 ∨
                              ∃ ca, calculate_center_of_mass (toQ A)
                                  ((cfg.min_rise : ℚ) / 2) = some ca ∧
                                r.peak_time_a =
                                  some (if ca = 0 then mra.2.1 else pyInt ca)) ∧
                            (r.peak_time_b = some mrb.2.1 ∨
                              ∃ cb, calculate_center_of_mass (toQ B)
                                  ((cfg.min_rise : ℚ) / 2) = some cb ∧
                                r.peak_time_b =
                                  some (if cb = 0 then mrb.2.1 else pyInt cb)) ∧
                            r.peak_gap_ms =
                              some (pyInt ((|mra.2.1 - mrb.2.1| : Int) : ℚ)) ∧
                            r.side_a_max = ma ∧ r.side_b_max = mb))))))))) := by
  unfold analyze_window_hybrid_core at h
  by_cases hAB : A = [] ∨ B = []
  · rw [if_pos hAB] at h
    exact Or.inl ⟨hAB, (Option.some_inj.mp h).symm⟩
  · rw [if_neg hAB] at h
    refine Or.inr ⟨hAB, ?_⟩
    cases hma : listMax (A.map Prod.snd) with
    | none => rw [hma] at h; cases hmb : listMax (B.map Prod.snd) <;>
        rw [hmb] at h <;> simp at h
    | some ma =>
      rw [hma] at h
      cases hmb : listMax (B.map Prod.snd) with
      | none => rw [hmb] at h; simp at h
      | some mb =>
        rw [hmb] at h
        simp only at h
        cases hsa : smooth_signal A cfg.smoothing_window with
        | none => rw [hsa] at h; cases hsb : smooth_signal B cfg.smoothing_window <;>
            rw [hsb] at h <;> simp at h
        | some sa =>
          rw [hsa] at h
          cases hsb : smooth_signal B cfg.smoothing_window with
          | none => rw [hsb] at h; simp at h
          | some sb =>
            rw [hsb] at h
            simp only at h
            refine ⟨ma, mb, sa, sb, rfl, rfl, rfl, rfl, ?_⟩
            by_cases hd : compute_derivative sa = [] ∨ compute_derivative sb = []
            · rw [if_pos hd] at h
              exact Or.inl ⟨hd, (Option.some_inj.mp h).symm⟩
            · rw [if_neg hd] at h
              refine Or.inr ⟨hd, ?_⟩
              cases hra : find_rise_start_times sa (compute_derivative sa)
                  (cfg.min_rise : ℚ) 2 with
              | none => rw [hra] at h
                        cases hrb : find_rise_start_times sb (compute_derivative sb)
                            (cfg.min_rise : ℚ) 2 <;> rw [hrb] at h <;> simp at h
              | some ra =>
                rw [hra] at h
                cases hrb : find_rise_start_times sb (compute_derivative sb)
                    (cfg.min_rise : ℚ) 2 with
                | none => rw [hrb] at h; simp at h
                | some rb =>
                  rw [hrb] at h
                  simp only at h
                  refine ⟨ra, rb, rfl, rfl, ?_⟩
                  by_cases hre : ra = [] ∨ rb = []
                  · rw [if_pos hre] at h
                    exact Or.inl ⟨hre, (Option.some_inj.mp h).symm⟩
                  · rw [if_neg hre] at h
                    refine Or.inr ⟨hre, ?_⟩
                    cases hmra : maxByAmount ra with
                    | none => rw [hmra] at h
                              cases hmrb : maxByAmount rb <;> rw [hmrb] at h <;>
                                simp at h
                    | some mra =>
                      rw [hmra] at h
                      cases hmrb : maxByAmount rb with
                      | none => rw [hmrb] at h; simp at h
                      | some mrb =>
                        rw [hmrb] at h
                        simp only at h
                        refine ⟨mra, mrb, rfl, rfl, ?_⟩
                        by_cases hgap : cfg.max_peak_gap_ms < |mra.2.1 - mrb.2.1|
                        · rw [if_pos hgap] at h
                          exact Or.inl ⟨hgap, (Option.some_inj.mp h).symm⟩
                        · rw [if_neg hgap] at h
                          refine Or.inr ⟨hgap, ?_⟩
                          cases hca : calculate_center_of_mass (toQ A)
                              ((cfg.min_rise : ℚ) / 2) with
                          | some ca =>
                            rw [hca] at h
                            cases hcb : calculate_center_of_mass (toQ B)
                                ((cfg.min_rise : ℚ) / 2) with
                            | some cb =>
                              rw [hcb] at h
                              simp only at h
                              exact Or.inl ⟨ca, cb, rfl, rfl,
                                (Option.some_inj.mp h).symm⟩
                            | none =>
                              rw [hcb] at h
                              simp only at h
                              have hr := (Option.some_inj.mp h).symm
                              subst hr
                              refine Or.inr ⟨Or.inr rfl, rfl, rfl, ?_, Or.inl rfl,
                                rfl, rfl, rfl⟩
                              exact Or.inr ⟨ca, rfl, rfl⟩
                          | none =>
                            rw [hca] at h
                            cases hcb : calculate_center_of_mass (toQ B)
                                ((cfg.min_rise : ℚ) / 2) with
                            | some cb =>
                              rw [hcb] at h
                              simp only at h
                              have hr := (Option.some_inj.mp h).symm
                              subst hr
                              refine Or.inr ⟨Or.inl rfl, rfl, rfl, Or.inl rfl, ?_,
                                rfl, rfl, rfl⟩
                              exact Or.inr ⟨cb, rfl, rfl⟩
                            | none =>
                              rw [hcb] at h
                              simp only at h
                              have hr := (Option.some_inj.mp h).symm
                              subst hr
                              exact Or.inr ⟨Or.inl rfl, rfl, rfl, Or.inl rfl,
                                Or.inl rfl, rfl, rfl, rfl⟩

/-! ## Wrapper reduction lemmas -/

theorem analyze_window_eq_core (readings : List SensorReading) (cfg : Config)
    (h : readings ≠ []) :
    analyze_window readings cfg =
      analyze_window_core (aggregate_by_side readings).1
        (aggregate_by_side readings).2 cfg := by
  simp [analyze_window, h]

theorem analyze_window_com_eq_core (readings : List SensorReading) (cfg : Config)
    (h : readings ≠ []) :
    analyze_window_com readings cfg =
      analyze_window_com_core (aggregate_by_side readings).1
        (aggregate_by_side readings).2 cfg := by
  simp [analyze_window_com, h]

theorem analyze_window_hybrid_eq_core (readings : List SensorReading) (cfg : Config)
    (h : readings ≠ []) :
    analyze_window_hybrid readings cfg =
      analyze_window_hybrid_core (aggregate_by_side readings).1
        (aggregate_by_side readings).2 cfg := by
  simp [analyze_window_hybrid, h]

/-! ## Claim C6 -/

/-- C6: `calculate_center_of_mass` with `minValue = minRise/2` returns `None`
exactly when the total weight `Σ max(0, value − minValue)` is below the
absolute floor 10, and otherwise returns
`Σ (t · max(0, value − minValue)) / Σ max(0, value − minValue)`. -/
theorem claim_C6_center_of_mass_spec (signal : Sig ℚ) (min_rise : ℚ) :
    (calculate_center_of_mass signal (min_rise / 2) = none ↔
      (signal.map (fun p => max 0 (p.2 - min_rise / 2))).sum < 10) ∧
    (10 ≤ (signal.map (fun p => max 0 (p.2 - min_rise / 2))).sum →
      calculate_center_of_mass signal (min_rise / 2) =
        some ((signal.map (fun p => (p.1 : ℚ) * max 0 (p.2 - min_rise / 2))).sum /
          (signal.map (fun p => max 0 (p.2 - min_rise / 2))).sum)) := by
  have hw : (fun p : Int × ℚ => if min_rise / 2 < p.2 then p.2 - min_rise / 2 else 0) =
      (fun p : Int × ℚ => max 0 (p.2 - min_rise / 2)) := by
    funext p
    by_cases hc : min_rise / 2 < p.2
    · rw [if_pos hc, max_eq_right (by linarith)]
    · rw [if_neg hc, max_eq_left (by linarith)]
  have hws : (fun p : Int × ℚ =>
      if min_rise / 2 < p.2 then (p.1 : ℚ) * (p.2 - min_rise / 2) else 0) =
      (fun p : Int × ℚ => (p.1 : ℚ) * max 0 (p.2 - min_rise / 2)) := by
    funext p
    by_cases hc : min_rise / 2 < p.2
    · rw [if_pos hc, max_eq_right (by linarith)]
    · rw [if_neg hc, max_eq_left (by linarith), mul_zero]
  simp only [calculate_center_of_mass, hw, hws]
  by_cases hS : (signal.map (fun p => max 0 (p.2 - min_rise / 2))).sum < 10
  · rw [if_pos hS]
    exact ⟨⟨fun _ => hS, fun _ => rfl⟩, fun hge => absurd hS (not_lt.mpr hge)⟩
  · rw [if_neg hS]
    exact ⟨⟨fun hc => absurd hc (Option.some_ne_none _), fun hlt => absurd hlt hS⟩,
      fun _ => rfl⟩

/-- Witness for C6 at the concrete signal `{2: 30}` with `minRise = 10`. -/
theorem claim_C6_witness :
    calculate_center_of_mass [((2 : Int), (30 : ℚ))] ((10 : ℚ) / 2) = some 2 := by
  have h := (claim_C6_center_of_mass_spec [((2 : Int), (30 : ℚ))] 10).2 (by
    simp [List.sum_cons]
    norm_num)
  rw [h]
  norm_num

/-! ## Claim C8 -/

/-- C8: if at least one side has zero aggregated points (in particular on zero
readings), every detector returns, without error, a result with direction
UNKNOWN, confidence 0 and both maxima 0. -/
theorem claim_C8_empty_side (readings : List SensorReading) (config : Config)
    (h : (aggregate_by_side readings).1 = [] ∨ (aggregate_by_side readings).2 = []) :
    (∃ r, analyze_window readings config = some r ∧
      r.direction = Direction.UNKNOWN ∧ r.confidence = 0 ∧
      r.side_a_max = 0 ∧ r.side_b_max = 0) ∧
    (∃ r, analyze_window_com readings config = some r ∧
      r.direction = Direction.UNKNOWN ∧ r.confidence = 0 ∧
      r.side_a_max = 0 ∧ r.side_b_max = 0) ∧
    (∃ r, analyze_window_hybrid readings config = some r ∧
      r.direction = Direction.UNKNOWN ∧ r.confidence = 0 ∧
      r.side_a_max = 0 ∧ r.side_b_max = 0) := by
  by_cases hrs : readings = []
  · subst hrs
    exact ⟨⟨emptyResult, rfl, rfl, rfl, rfl, rfl⟩,
      ⟨emptyResult, rfl, rfl, rfl, rfl, rfl⟩,
      ⟨emptyResult, rfl, rfl, rfl, rfl, rfl⟩⟩
  · refine ⟨⟨emptyResult, ?_, rfl, rfl, rfl, rfl⟩,
      ⟨emptyResult, ?_, rfl, rfl, rfl, rfl⟩,
      ⟨emptyResult, ?_, rfl, rfl, rfl, rfl⟩⟩
    · rw [analyze_window_eq_core readings config hrs]
      unfold analyze_window_core
      rw [if_pos h]
    · rw [analyze_window_com_eq_core readings config hrs]
      unfold analyze_window_com_core
      rw [if_pos h]
    · rw [analyze_window_hybrid_eq_core readings config hrs]
      unfold analyze_window_hybrid_core
      rw [if_pos h]

/-- Witness for C8 on the empty reading list. -/
theorem claim_C8_witness :
    ∃ r, analyze_window [] defaultConfig = some r ∧
      r.direction = Direction.UNKNOWN ∧ r.confidence = 0 ∧
      r.side_a_max = 0 ∧ r.side_b_max = 0 :=
  (claim_C8_empty_side [] defaultConfig (Or.inl rfl)).1

/-! ## Claim C9 -/

theorem list_sum_eq_sum_get? (l : List ℚ) :
    l.sum = ∑ k in Finset.range l.length, ((l.get? k).getD 0) := by
  induction l with
  | nil => simp
  | cons x xs ih =>
    rw [List.sum_cons, ih, List.length_cons, Finset.sum_range_succ']
    simp [add_comm]

theorem smoothVal_eq_mean (signal : Sig Int) (window i : Nat) (hw : 1 ≤ window)
    (hi : i < signal.length) :
    smoothVal signal window i =
      (∑ j in Finset.Icc (i + 1 - window) i, valAtQ signal j) /
        ((Finset.Icc (i + 1 - window) i).card : ℚ) := by
  have hs_le : i + 1 - window ≤ i := by omega
  have hlen : (((signal.drop (i + 1 - window)).take (i + 1 - (i + 1 - window))).map
      (fun p => (p.2 : ℚ))).length = i + 1 - (i + 1 - window) := by
    rw [List.length_map, List.length_take, List.length_drop]
    omega
  have hget : ∀ k, k < i + 1 - (i + 1 - window) →
      ((((signal.drop (i + 1 - window)).take (i + 1 - (i + 1 - window))).map
        (fun p => (p.2 : ℚ))).get? k).getD 0 = valAtQ signal (i + 1 - window + k) := by
    intro k hk
    rw [List.get?_map, List.get?_take hk, List.get?_drop]
    rfl
  simp only [smoothVal]
  rw [list_sum_eq_sum_get?, hlen]
  rw [Finset.sum_congr rfl (fun k hk => hget k (Finset.mem_range.mp hk))]
  rw [← Nat.Ico_succ_right, Finset.sum_Ico_eq_sum_range, Nat.Ico_succ_right,
    Nat.card_Icc]

/-- C9: for window ≥ 1, `smooth_signal` keeps the timestamp domain exactly,
and the value at the i-th timestamp (ascending order) is the arithmetic mean
of the input values at indices `max(0, i−window+1) .. i`. -/
theorem claim_C9_smooth (signal : Sig Int) (window : Nat) (hw : 1 ≤ window)
    (out : Sig ℚ) (h : smooth_signal signal window = some out) :
    sigKeys out = sigKeys signal ∧
    ∀ i : Nat, i < signal.length →
      out.get? i = (signal.get? i).map (fun p =>
        (p.1, (∑ j in Finset.Icc (i + 1 - window) i, valAtQ signal j) /
          ((Finset.Icc (i + 1 - window) i).card : ℚ))) := by
  refine ⟨smooth_keys signal window out h, ?_⟩
  intro i hi
  rw [smooth_signal_eq signal window hw] at h
  have hout : out = signal.enum.map
      (fun ip => (ip.2.1, smoothVal signal window ip.1)) :=
    (Option.some_inj.mp h).symm
  rw [hout, List.get?_map, List.get?_enum, Option.map_map]
  rw [← smoothVal_eq_mean signal window i hw hi]
  rfl

/-- Witness for C9: smoothing `{0:0, 10:6, 20:12}` with window 3. -/
theorem claim_C9_witness :
    ∃ out, smooth_signal [((0 : Int), (0 : Int)), (10, 6), (20, 12)] 3 = some out ∧
      sigKeys out = [0, 10, 20] ∧
      out.get? 2 = some (20, (∑ j in Finset.Icc 0 2,
        valAtQ [((0 : Int), (0 : Int)), (10, 6), (20, 12)] j) /
        ((Finset.Icc (0 : Nat) 2).card : ℚ)) := by
  have hsome := smooth_signal_eq [((0 : Int), (0 : Int)), (10, 6), (20, 12)] 3
    (by norm_num)
  refine ⟨_, hsome, ?_⟩
  have h := claim_C9_smooth [((0 : Int), (0 : Int)), (10, 6), (20, 12)] 3
    (by norm_num) _ hsome
  refine ⟨h.1, ?_⟩
  have h2 := h.2 2 (by norm_num)
  rw [h2]
  rfl

/-! ## Claim C5 -/

theorem lookupD_nil {α : Type} (t : Int) (d : α) : lookupD [] t d = d := rfl

theorem lookupD_cons {α : Type} (p : Int × α) (s : Sig α) (t : Int) (d : α) :
    lookupD (p :: s) t d = if p.1 = t then p.2 else lookupD s t d := by
  by_cases h : p.1 = t
  · have hb : (p.1 == t) = true := beq_iff_eq.mpr h
    simp [lookupD, List.find?, hb, h]
  · have hb : (p.1 == t) = false := beq_eq_false_iff_ne.mpr h
    simp [lookupD, List.find?, hb, h]

/-- C5: every rise `(start, peak, amount)` recorded by
`find_rise_start_times` has `start < peak` and `amount ≥ minRise`, the start
is followed by at least 2 consecutive derivative samples above the fixed
threshold 2.0, and the peak is where the derivative falls to ≤ 0. -/
theorem claim_C5_rise_events (signal derivative : Sig ℚ) (min_rise : ℚ)
    (hsort : (sigKeys derivative).Sorted (· < ·))
    (rises : List (Int × Int × ℚ))
    (h : find_rise_start_times signal derivative min_rise 2 = some rises) :
    ∀ s p a, (s, p, a) ∈ rises →
      s < p ∧ min_rise ≤ a ∧
      riseWitness derivative (sigKeys derivative) 2 s ∧
      peakWitness derivative (sigKeys derivative) p := by
  intro s p a hmem
  have hg := find_rise_good signal derivative min_rise 2 rises h (s, p, a) hmem
  obtain ⟨hamt, j, k, hjk, hkn, hsj, hpk, hw1, hw2, hw3, hw4⟩ := hg
  have hsj' : s = nthD (sigKeys derivative) j := hsj
  have hpk' : p = nthD (sigKeys derivative) k := hpk
  refine ⟨?_, hamt, ⟨j, by omega, hsj', hw1, hw2⟩, ⟨k, hkn, hpk', hw3, hw4⟩⟩
  rw [hsj', hpk']
  exact nthD_lt_nthD _ hsort j k hjk (by omega)

/-- Witness for C5 on a concrete 4-sample derivative with one recorded rise
`(1, 3, 20)`. -/
theorem claim_C5_witness :
    (1 : Int) < 3 ∧ (10 : ℚ) ≤ 20 ∧
    riseWitness [((1 : Int), (0 : ℚ)), (2, 3), (3, 4), (4, -1)]
      (sigKeys [((1 : Int), (0 : ℚ)), (2, 3), (3, 4), (4, -1)]) 2 1 ∧
    peakWitness [((1 : Int), (0 : ℚ)), (2, 3), (3, 4), (4, -1)]
      (sigKeys [((1 : Int), (0 : ℚ)), (2, 3), (3, 4), (4, -1)]) 3 := by
  have hrun : find_rise_start_times [((1 : Int), (0 : ℚ)), (2, 5), (3, 20), (4, 10)]
      [((1 : Int), (0 : ℚ)), (2, 3), (3, 4), (4, -1)] 10 2 =
      some [(1, 3, 20)] := by
    simp only [find_rise_start_times, sigKeys, List.map_cons, List.map_nil,
      List.length_cons, List.length_nil]
    norm_num [riseLoop, riseStep, risePhase1, risePhase2, nthD, lookupD_cons,
      lookupD_nil, pyIdx, List.get?]
  have hsort : (sigKeys [((1 : Int), (0 : ℚ)), (2, 3), (3, 4), (4, -1)]).Sorted
      (· < ·) := by
    simp only [sigKeys, List.map_cons, List.map_nil]
    norm_num [List.Sorted]
  exact claim_C5_rise_events _ _ 10 hsort _ hrun 1 3 20 (by simp)

/-! ## Claim C10 -/

theorem analyze_window_core_isSome (A B : Sig Int) (cfg : Config)
    (hw : 1 ≤ cfg.smoothing_window) : (analyze_window_core A B cfg).isSome := by
  unfold analyze_window_core
  by_cases hAB : A = [] ∨ B = []
  · rw [if_pos hAB]; rfl
  · rw [if_neg hAB]
    push_neg at hAB
    obtain ⟨sa, hsa⟩ :=
      Option.isSome_iff_exists.mp (smooth_signal_isSome A _ hw)
    obtain ⟨sb, hsb⟩ :=
      Option.isSome_iff_exists.mp (smooth_signal_isSome B _ hw)
    rw [hsa, hsb]
    simp only
    obtain ⟨ma, hma⟩ := Option.isSome_iff_exists.mp
      (listMax_isSome (A.map Prod.snd) (by simp [hAB.1]))
    obtain ⟨mb, hmb⟩ := Option.isSome_iff_exists.mp
      (listMax_isSome (B.map Prod.snd) (by simp [hAB.2]))
    rw [hma, hmb]
    simp only
    by_cases hd : compute_derivative sa = [] ∨ compute_derivative sb = []
    · rw [if_pos hd]; rfl
    · rw [if_neg hd]
      obtain ⟨ra, hra⟩ := Option.isSome_iff_exists.mp
        (find_rise_isSome sa (compute_derivative sa) (cfg.min_rise : ℚ) 2)
      obtain ⟨rb, hrb⟩ := Option.isSome_iff_exists.mp
        (find_rise_isSome sb (compute_derivative sb) (cfg.min_rise : ℚ) 2)
      rw [hra, hrb]
      simp only
      by_cases hre : ra = [] ∨ rb = []
      · rw [if_pos hre]; rfl
      · rw [if_neg hre]
        push_neg at hre
        obtain ⟨mra, hmra⟩ :=
          Option.isSome_iff_exists.mp (maxByAmount_isSome ra hre.1)
        obtain ⟨mrb, hmrb⟩ :=
          Option.isSome_iff_exists.mp (maxByAmount_isSome rb hre.2)
        rw [hmra, hmrb]
        simp only
        by_cases hgap : cfg.max_peak_gap_ms < |mra.2.1 - mrb.2.1|
        · rw [if_pos hgap]; rfl
        · rw [if_neg hgap]; rfl

theorem analyze_window_com_core_isSome (A B : Sig Int) (cfg : Config) :
    (analyze_window_com_core A B cfg).isSome := by
  unfold analyze_window_com_core
  by_cases hAB : A = [] ∨ B = []
  · rw [if_pos hAB]; rfl
  · rw [if_neg hAB]
    push_neg at hAB
    obtain ⟨ma, hma⟩ := Option.isSome_iff_exists.mp
      (listMax_isSome (A.map Prod.snd) (by simp [hAB.1]))
    obtain ⟨mb, hmb⟩ := Option.isSome_iff_exists.mp
      (listMax_isSome (B.map Prod.snd) (by simp [hAB.2]))
    rw [hma, hmb]
    simp only
    cases hca : calculate_center_of_mass (toQ A) ((cfg.min_rise : ℚ) / 2) with
    | none =>
      cases hcb : calculate_center_of_mass (toQ B) ((cfg.min_rise : ℚ) / 2) <;> rfl
    | some ca =>
      cases hcb : calculate_center_of_mass (toQ B) ((cfg.min_rise : ℚ) / 2) with
      | none => rfl
      | some cb =>
        simp only
        by_cases hmr : ma < cfg.min_rise ∨ mb < cfg.min_rise
        · rw [if_pos hmr]; rfl
        · rw [if_neg hmr]; rfl

theorem analyze_window_hybrid_core_isSome (A B : Sig Int) (cfg : Config)
    (hw : 1 ≤ cfg.smoothing_window) : (analyze_window_hybrid_core A B cfg).isSome := by
  unfold analyze_window_hybrid_core
  by_cases hAB : A = [] ∨ B = []
  · rw [if_pos hAB]; rfl
  · rw [if_neg hAB]
    push_neg at hAB
    obtain ⟨ma, hma⟩ := Option.isSome_iff_exists.mp
      (listMax_isSome (A.map Prod.snd) (by simp [hAB.1]))
    obtain ⟨mb, hmb⟩ := Option.isSome_iff_exists.mp
      (listMax_isSome (B.map Prod.snd) (by simp [hAB.2]))
    rw [hma, hmb]
    simp only
    obtain ⟨sa, hsa⟩ :=
      Option.isSome_iff_exists.mp (smooth_signal_isSome A _ hw)
    obtain ⟨sb, hsb⟩ :=
      Option.isSome_iff_exists.mp (smooth_signal_isSome B _ hw)
    rw [hsa, hsb]
    simp only
    by_cases hd : compute_derivative sa = [] ∨ compute_derivative sb = []
    · rw [if_pos hd]; rfl
    · rw [if_neg hd]
      obtain ⟨ra, hra⟩ := Option.isSome_iff_exists.mp
        (find_rise_isSome sa (compute_derivative sa) (cfg.min_rise : ℚ) 2)
      obtain ⟨rb, hrb⟩ := Option.isSome_iff_exists.mp
        (find_rise_isSome sb (compute_derivative sb) (cfg.min_rise : ℚ) 2)
      rw [hra, hrb]
      simp only
      by_cases hre : ra = [] ∨ rb = []
      · rw [if_pos hre]; rfl
      · rw [if_neg hre]
        push_neg at hre
        obtain ⟨mra, hmra⟩ :=
          Option.isSome_iff_exists.mp (maxByAmount_isSome ra hre.1)
        obtain ⟨mrb, hmrb⟩ :=
          Option.isSome_iff_exists.mp (maxByAmount_isSome rb hre.2)
        rw [hmra, hmrb]
        simp only
        by_cases hgap : cfg.max_peak_gap_ms < |mra.2.1 - mrb.2.1|
        · rw [if_pos hgap]; rfl
        · rw [if_neg hgap]
          cases hca : calculate_center_of_mass (toQ A) ((cfg.min_rise : ℚ) / 2) with
          | none =>
            cases hcb : calculate_center_of_mass (toQ B) ((cfg.min_rise : ℚ) / 2) <;>
              rfl
          | some ca =>
            cases hcb : calculate_center_of_mass (toQ B) ((cfg.min_rise : ℚ) / 2) <;>
              rfl

/-- C10: for any finite reading list (arbitrary integer fields) and any
config with `smoothingWindow ≥ 1`, all three detectors terminate and return a
`DetectionResult` (no division by zero, no `max` over an empty collection, no
out-of-range index: the embedding returns `none` in each of those cases). -/
theorem claim_C10_no_exception (readings : List SensorReading) (config : Config)
    (hw : 1 ≤ config.smoothing_window) :
    (analyze_window readings config).isSome ∧
    (analyze_window_com readings config).isSome ∧
    (analyze_window_hybrid readings config).isSome := by
  by_cases hrs : readings = []
  · subst hrs
    exact ⟨rfl, rfl, rfl⟩
  · rw [analyze_window_eq_core readings config hrs,
      analyze_window_com_eq_core readings config hrs,
      analyze_window_hybrid_eq_core readings config hrs]
    exact ⟨analyze_window_core_isSome _ _ _ hw,
      analyze_window_com_core_isSome _ _ _,
      analyze_window_hybrid_core_isSome _ _ _ hw⟩

/-- Witness for C10 on a one-reading input with the default config. -/
theorem claim_C10_witness :
    (analyze_window [⟨0, 0, 1, 5⟩] defaultConfig).isSome ∧
    (analyze_window_com [⟨0, 0, 1, 5⟩] defaultConfig).isSome ∧
    (analyze_window_hybrid [⟨0, 0, 1, 5⟩] defaultConfig).isSome :=
  claim_C10_no_exception [⟨0, 0, 1, 5⟩] defaultConfig (by norm_num [defaultConfig])

/-! ## Claim C1 -/

/-- C1 is false as stated: on two far-apart one-sided spikes the
Center-of-Mass detector returns direction `A_TO_B` with
`gapMs = 1000 > maxPeakGapMs = 100` (the detector never compares its centroid
gap against `maxPeakGapMs`). -/
theorem claim_C1_counterexample :
    (analyze_window_com [⟨0, 0, 2, 30⟩, ⟨1000, 0, 1, 30⟩] defaultConfig).map
        (fun r => (r.direction, r.peak_gap_ms)) =
      some (Direction.A_TO_B, some 1000) ∧
    defaultConfig.max_peak_gap_ms = 100 := by
  constructor
  · norm_num [analyze_window_com, analyze_window_com_core, aggregate_by_side,
      aggregate, calculate_center_of_mass, listMax, toQ, defaultConfig, pyInt,
      List.dedup, List.insertionSort, List.orderedInsert, List.filter,
      List.map_cons, List.sum_cons]
    rw [if_neg (List.cons_ne_nil _ _)]
    simp
  · rfl

/-- C1 amended: whenever a detector's result has direction ≠ UNKNOWN, its
`eventTimeA`, `eventTimeB` and `gapMs` fields are non-null (the bound
`gapMs ≤ maxPeakGapMs` does not hold in general). -/
theorem claim_C1_amended (readings : List SensorReading) (config : Config) :
    (∀ r, analyze_window readings config = some r →
      r.direction ≠ Direction.UNKNOWN →
      r.peak_time_a ≠ none ∧ r.peak_time_b ≠ none ∧ r.peak_gap_ms ≠ none) ∧
    (∀ r, analyze_window_com readings config = some r →
      r.direction ≠ Direction.UNKNOWN →
      r.peak_time_a ≠ none ∧ r.peak_time_b ≠ none ∧ r.peak_gap_ms ≠ none) ∧
    (∀ r, analyze_window_hybrid readings config = some r →
      r.direction ≠ Direction.UNKNOWN →
      r.peak_time_a ≠ none ∧ r.peak_time_b ≠ none ∧ r.peak_gap_ms ≠ none) := by
  by_cases hrs : readings = []
  · subst hrs
    refine ⟨?_, ?_, ?_⟩ <;>
      · intro r h hdir
        have hr : emptyResult = r := Option.some_inj.mp h
        rw [← hr] at hdir
        exact absurd rfl hdir
  · refine ⟨?_, ?_, ?_⟩
    · intro r h hdir
      rw [analyze_window_eq_core readings config hrs] at h
      rcases analyze_window_core_cases _ _ _ _ h with ⟨-, hr⟩ |
        ⟨-, sa, sb, ma, mb, -, -, -, -, hbr⟩
      · subst hr; exact absurd rfl hdir
      rcases hbr with ⟨-, hr⟩ | ⟨-, ra, rb, -, -, hbr⟩
      · subst hr; exact absurd rfl hdir
      rcases hbr with ⟨-, hr⟩ | ⟨-, mra, mrb, -, -, hbr⟩
      · subst hr; exact absurd rfl hdir
      rcases hbr with ⟨-, hr⟩ | ⟨-, hr⟩
      · subst hr; exact absurd rfl hdir
      · subst hr; exact ⟨Option.some_ne_none _, Option.some_ne_none _,
          Option.some_ne_none _⟩
    · intro r h hdir
      rw [analyze_window_com_eq_core readings config hrs] at h
      rcases analyze_window_com_core_cases _ _ _ _ h with ⟨-, hr⟩ |
        ⟨-, ma, mb, -, -, hbr⟩
      · subst hr; exact absurd rfl hdir
      rcases hbr with ⟨ca, cb, -, -, hbr⟩ | ⟨-, hr⟩
      · rcases hbr with ⟨-, hr⟩ | ⟨-, hr⟩
        · subst hr; exact absurd rfl hdir
        · subst hr; exact ⟨Option.some_ne_none _, Option.some_ne_none _,
            Option.some_ne_none _⟩
      · subst hr; exact absurd rfl hdir
    · intro r h hdir
      rw [analyze_window_hybrid_eq_core readings config hrs] at h
      rcases analyze_window_hybrid_core_cases _ _ _ _ h with ⟨-, hr⟩ |
        ⟨-, ma, mb, sa, sb, -, -, -, -, hbr⟩
      · subst hr; exact absurd rfl hdir
      rcases hbr with ⟨-, hr⟩ | ⟨-, ra, rb, -, -, hbr⟩
      · subst hr; exact absurd rfl hdir
      rcases hbr with ⟨-, hr⟩ | ⟨-, mra, mrb, -, -, hbr⟩
      · subst hr; exact absurd rfl hdir
      rcases hbr with ⟨-, hr⟩ | ⟨-, hbr⟩
      · subst hr; exact absurd rfl hdir
      rcases hbr with ⟨ca, cb, -, -, hr⟩ |
        ⟨-, -, -, hpa, hpb, hgap, -, -⟩
      · subst hr; exact ⟨Option.some_ne_none _, Option.some_ne_none _,
          Option.some_ne_none _⟩
      · refine ⟨?_, ?_, ?_⟩
        · rcases hpa with hpa | ⟨ca, -, hpa⟩ <;> rw [hpa] <;>
            exact Option.some_ne_none _
        · rcases hpb with hpb | ⟨cb, -, hpb⟩ <;> rw [hpb] <;>
            exact Option.some_ne_none _
        · rw [hgap]; exact Option.some_ne_none _

/-- Witness for the amended C1 on a clean A→B transit. -/
theorem claim_C1_witness :
    ∃ r, analyze_window_com [⟨0, 0, 2, 30⟩, ⟨1000, 0, 1, 30⟩] defaultConfig =
        some r ∧
      r.peak_time_a ≠ none ∧ r.peak_time_b ≠ none ∧ r.peak_gap_ms ≠ none := by
  have hrun : analyze_window_com [⟨0, 0, 2, 30⟩, ⟨1000, 0, 1, 30⟩] defaultConfig =
      some ⟨Direction.A_TO_B, 4 / 5, some 0, some 1000, some 1000, 30, 30⟩ := by
    norm_num [analyze_window_com, analyze_window_com_core, aggregate_by_side,
      aggregate, calculate_center_of_mass, listMax, toQ, defaultConfig, pyInt,
      List.dedup, List.insertionSort, List.orderedInsert, List.filter,
      List.map_cons, List.sum_cons]
    intro hc
    exact absurd hc (List.cons_ne_nil _ _)
  refine ⟨_, hrun, ?_⟩
  exact ((claim_C1_amended [⟨0, 0, 2, 30⟩, ⟨1000, 0, 1, 30⟩] defaultConfig).2.1
    _ hrun (by simp))

/-! ## Claim C2 -/

theorem listMax_nonneg_of_agg (rs : List SensorReading)
    (hp : ∀ r ∈ rs, 0 ≤ r.proximity) (m : Int)
    (h : listMax ((aggregate rs).map Prod.snd) = some m) : 0 ≤ m := by
  obtain ⟨hmem, -⟩ := listMax_spec _ _ h
  obtain ⟨p, hpA, hpm⟩ := List.mem_map.mp hmem
  rw [← hpm]
  exact aggregate_value_nonneg rs hp p hpA

/-- C2 is false as stated: a single side-B reading of proximity 50 makes
side A empty, and `analyze_window` then zero-defaults `sideBMax` to 0 even
though side B's observed aggregated peak is 50. -/
theorem claim_C2_counterexample :
    (analyze_window [⟨0, 0, 1, 50⟩] defaultConfig).map (fun r => r.side_b_max) =
      some 0 ∧
    (aggregate_by_side [⟨0, 0, 1, 50⟩]).2.map Prod.snd = [50] := by
  constructor
  · decide
  · decide

/-- C2 amended: with non-negative proximities both maxima are always ≥ 0, and
whenever BOTH sides have at least one aggregated point, each side's maximum
field is the peak aggregated value actually observed for that side. -/
theorem claim_C2_amended (readings : List SensorReading) (config : Config)
    (hp : ∀ x ∈ readings, 0 ≤ x.proximity) :
    (∀ r, analyze_window readings config = some r →
      (0 ≤ r.side_a_max ∧ 0 ≤ r.side_b_max) ∧
      ((aggregate_by_side readings).1 ≠ [] → (aggregate_by_side readings).2 ≠ [] →
        (r.side_a_max ∈ (aggregate_by_side readings).1.map Prod.snd ∧
          ∀ v ∈ (aggregate_by_side readings).1.map Prod.snd, v ≤ r.side_a_max) ∧
        (r.side_b_max ∈ (aggregate_by_side readings).2.map Prod.snd ∧
          ∀ v ∈ (aggregate_by_side readings).2.map Prod.snd, v ≤ r.side_b_max))) ∧
    (∀ r, analyze_window_com readings config = some r →
      (0 ≤ r.side_a_max ∧ 0 ≤ r.side_b_max) ∧
      ((aggregate_by_side readings).1 ≠ [] → (aggregate_by_side readings).2 ≠ [] →
        (r.side_a_max ∈ (aggregate_by_side readings).1.map Prod.snd ∧
          ∀ v ∈ (aggregate_by_side readings).1.map Prod.snd, v ≤ r.side_a_max) ∧
        (r.side_b_max ∈ (aggregate_by_side readings).2.map Prod.snd ∧
          ∀ v ∈ (aggregate_by_side readings).2.map Prod.snd, v ≤ r.side_b_max))) ∧
    (∀ r, analyze_window_hybrid readings config = some r →
      (0 ≤ r.side_a_max ∧ 0 ≤ r.side_b_max) ∧
      ((aggregate_by_side readings).1 ≠ [] → (aggregate_by_side readings).2 ≠ [] →
        (r.side_a_max ∈ (aggregate_by_side readings).1.map Prod.snd ∧
          ∀ v ∈ (aggregate_by_side readings).1.map Prod.snd, v ≤ r.side_a_max) ∧
        (r.side_b_max ∈ (aggregate_by_side readings).2.map Prod.snd ∧
          ∀ v ∈ (aggregate_by_side readings).2.map Prod.snd, v ≤ r.side_b_max))) := by
  have hpa : ∀ x ∈ readings.filter (fun x => x.side == 2), 0 ≤ x.proximity :=
    fun x hx => hp x (List.mem_of_mem_filter hx)
  have hpb : ∀ x ∈ readings.filter (fun x => !(x.side == 2)), 0 ≤ x.proximity :=
    fun x hx => hp x (List.mem_of_mem_filter hx)
  have hfin : ∀ (r : DetectionResult) (ma mb : Int),
      listMax ((aggregate_by_side readings).1.map Prod.snd) = some ma →
      listMax ((aggregate_by_side readings).2.map Prod.snd) = some mb →
      r.side_a_max = ma → r.side_b_max = mb →
      (0 ≤ r.side_a_max ∧ 0 ≤ r.side_b_max) ∧
      ((aggregate_by_side readings).1 ≠ [] → (aggregate_by_side readings).2 ≠ [] →
        (r.side_a_max ∈ (aggregate_by_side readings).1.map Prod.snd ∧
          ∀ v ∈ (aggregate_by_side readings).1.map Prod.snd, v ≤ r.side_a_max) ∧
        (r.side_b_max ∈ (aggregate_by_side readings).2.map Prod.snd ∧
          ∀ v ∈ (aggregate_by_side readings).2.map Prod.snd, v ≤ r.side_b_max)) := by
    intro r ma mb hma hmb hra hrb
    have hA := listMax_spec _ _ hma
    have hB := listMax_spec _ _ hmb
    refine ⟨⟨?_, ?_⟩, fun _ _ => ⟨⟨?_, ?_⟩, ⟨?_, ?_⟩⟩⟩
    · rw [hra]; exact listMax_nonneg_of_agg _ hpa ma hma
    · rw [hrb]; exact listMax_nonneg_of_agg _ hpb mb hmb
    · rw [hra]; exact hA.1
    · rw [hra]; exact hA.2
    · rw [hrb]; exact hB.1
    · rw [hrb]; exact hB.2
  by_cases hrs : readings = []
  · subst hrs
    refine ⟨?_, ?_, ?_⟩ <;>
      · intro r h
        have hr : emptyResult = r := Option.some_inj.mp h
        subst hr
        exact ⟨⟨le_refl 0, le_refl 0⟩, fun hA _ => absurd rfl hA⟩
  · refine ⟨?_, ?_, ?_⟩
    · intro r h
      rw [analyze_window_eq_core readings config hrs] at h
      rcases analyze_window_core_cases _ _ _ _ h with ⟨hAB, hr⟩ |
        ⟨hAB, sa, sb, ma, mb, -, -, hma, hmb, hbr⟩
      · subst hr
        exact ⟨⟨le_refl 0, le_refl 0⟩, fun hA hB => absurd hAB (by simp [hA, hB])⟩
      rcases hbr with ⟨-, hr⟩ | ⟨-, ra, rb, -, -, hbr⟩
      · subst hr; exact hfin _ ma mb hma hmb rfl rfl
      rcases hbr with ⟨-, hr⟩ | ⟨-, mra, mrb, -, -, hbr⟩
      · subst hr; exact hfin _ ma mb hma hmb rfl rfl
      rcases hbr with ⟨-, hr⟩ | ⟨-, hr⟩ <;>
        · subst hr; exact hfin _ ma mb hma hmb rfl rfl
    · intro r h
      rw [analyze_window_com_eq_core readings config hrs] at h
      rcases analyze_window_com_core_cases _ _ _ _ h with ⟨hAB, hr⟩ |
        ⟨hAB, ma, mb, hma, hmb, hbr⟩
      · subst hr
        exact ⟨⟨le_refl 0, le_refl 0⟩, fun hA hB => absurd hAB (by simp [hA, hB])⟩
      rcases hbr with ⟨ca, cb, -, -, hbr⟩ | ⟨-, hr⟩
      · rcases hbr with ⟨-, hr⟩ | ⟨-, hr⟩ <;>
          · subst hr; exact hfin _ ma mb hma hmb rfl rfl
      · subst hr; exact hfin _ ma mb hma hmb rfl rfl
    · intro r h
      rw [analyze_window_hybrid_eq_core readings config hrs] at h
      rcases analyze_window_hybrid_core_cases _ _ _ _ h with ⟨hAB, hr⟩ |
        ⟨hAB, ma, mb, sa, sb, hma, hmb, -, -, hbr⟩
      · subst hr
        exact ⟨⟨le_refl 0, le_refl 0⟩, fun hA hB => absurd hAB (by simp [hA, hB])⟩
      rcases hbr with ⟨-, hr⟩ | ⟨-, ra, rb, -, -, hbr⟩
      · subst hr; exact hfin _ ma mb hma hmb rfl rfl
      rcases hbr with ⟨-, hr⟩ | ⟨-, mra, mrb, -, -, hbr⟩
      · subst hr; exact hfin _ ma mb hma hmb rfl rfl
      rcases hbr with ⟨-, hr⟩ | ⟨-, hbr⟩
      · subst hr; exact hfin _ ma mb hma hmb rfl rfl
      rcases hbr with ⟨ca, cb, -, -, hr⟩ | ⟨-, -, -, -, -, -, hrma, hrmb⟩
      · subst hr; exact hfin _ ma mb hma hmb rfl rfl
      · exact hfin _ ma mb hma hmb hrma hrmb

/-- Witness for the amended C2 on a two-sided input. -/
theorem claim_C2_witness :
    ∃ r, analyze_window [⟨0, 0, 2, 7⟩, ⟨0, 0, 1, 9⟩] defaultConfig = some r ∧
      0 ≤ r.side_a_max ∧ 0 ≤ r.side_b_max ∧
      r.side_a_max ∈ (aggregate_by_side [⟨0, 0, 2, 7⟩, ⟨0, 0, 1, 9⟩]).1.map Prod.snd := by
  have hsome : (analyze_window [⟨0, 0, 2, 7⟩, ⟨0, 0, 1, 9⟩] defaultConfig).isSome := by
    rw [analyze_window_eq_core _ _ (List.cons_ne_nil _ _)]
    exact analyze_window_core_isSome _ _ _ (by norm_num [defaultConfig])
  obtain ⟨r, hr⟩ := Option.isSome_iff_exists.mp hsome
  have h := (claim_C2_amended [⟨0, 0, 2, 7⟩, ⟨0, 0, 1, 9⟩] defaultConfig
    (by intro x hx; fin_cases hx <;> norm_num)).1 r hr
  refine ⟨r, hr, h.1.1, h.1.2, ?_⟩
  exact ((h.2 (by decide) (by decide)).1).1

/-! ## Claim C3 -/

theorem com_nil (mv : ℚ) : calculate_center_of_mass [] mv = none := by
  norm_num [calculate_center_of_mass]

/-- C3 is false as stated: with all proximities 9 both centers of mass are
defined (total weight 12 ≥ 10 per side) yet `analyze_window_com` returns
UNKNOWN, because it additionally requires both side maxima ≥ `minRise`. -/
theorem claim_C3_counterexample :
    (calculate_center_of_mass
      (toQ (aggregate_by_side [⟨0,0,2,9⟩, ⟨1,0,2,9⟩, ⟨2,0,2,9⟩,
        ⟨10,0,1,9⟩, ⟨11,0,1,9⟩, ⟨12,0,1,9⟩]).1)
      ((defaultConfig.min_rise : ℚ) / 2)).isSome ∧
    (calculate_center_of_mass
      (toQ (aggregate_by_side [⟨0,0,2,9⟩, ⟨1,0,2,9⟩, ⟨2,0,2,9⟩,
        ⟨10,0,1,9⟩, ⟨11,0,1,9⟩, ⟨12,0,1,9⟩]).2)
      ((defaultConfig.min_rise : ℚ) / 2)).isSome ∧
    (analyze_window_com [⟨0,0,2,9⟩, ⟨1,0,2,9⟩, ⟨2,0,2,9⟩,
        ⟨10,0,1,9⟩, ⟨11,0,1,9⟩, ⟨12,0,1,9⟩] defaultConfig).map
      (fun r => r.direction) = some Direction.UNKNOWN := by
  have hagg : aggregate_by_side [⟨0,0,2,9⟩, ⟨1,0,2,9⟩, ⟨2,0,2,9⟩,
      ⟨10,0,1,9⟩, ⟨11,0,1,9⟩, ⟨12,0,1,9⟩] =
      ([((0:Int),(9:Int)),(1,9),(2,9)], [((10:Int),(9:Int)),(11,9),(12,9)]) := by
    decide
  refine ⟨?_, ?_, ?_⟩
  · rw [hagg]
    norm_num [calculate_center_of_mass, toQ, defaultConfig, List.map_cons,
      List.sum_cons]
  · rw [hagg]
    norm_num [calculate_center_of_mass, toQ, defaultConfig, List.map_cons,
      List.sum_cons]
  · rw [analyze_window_com_eq_core _ _ (List.cons_ne_nil _ _), hagg]
    norm_num [analyze_window_com_core, calculate_center_of_mass, listMax, toQ,
      defaultConfig, pyInt, List.map_cons, List.sum_cons]
    simp

/-- C3 amended: when both centers of mass are defined AND both side maxima
reach `minRise`, the Center-of-Mass detector's direction is not UNKNOWN and is
`A_TO_B` exactly when side A's center of mass is strictly earlier. -/
theorem claim_C3_amended (readings : List SensorReading) (config : Config)
    (r : DetectionResult) (ca cb : ℚ)
    (hca : calculate_center_of_mass (toQ (aggregate_by_side readings).1)
      ((config.min_rise : ℚ) / 2) = some ca)
    (hcb : calculate_center_of_mass (toQ (aggregate_by_side readings).2)
      ((config.min_rise : ℚ) / 2) = some cb)
    (hmax : ∀ ma mb, listMax ((aggregate_by_side readings).1.map Prod.snd) = some ma →
      listMax ((aggregate_by_side readings).2.map Prod.snd) = some mb →
      config.min_rise ≤ ma ∧ config.min_rise ≤ mb)
    (h : analyze_window_com readings config = some r) :
    r.direction = (if ca < cb then Direction.A_TO_B else Direction.B_TO_A) ∧
    r.direction ≠ Direction.UNKNOWN := by
  have hrs : readings ≠ [] := by
    intro hc
    subst hc
    rw [show (aggregate_by_side ([] : List SensorReading)).1 = [] from rfl] at hca
    rw [show toQ [] = [] from rfl, com_nil] at hca
    exact absurd hca (by simp)
  rw [analyze_window_com_eq_core readings config hrs] at h
  rcases analyze_window_com_core_cases _ _ _ _ h with ⟨hAB, -⟩ |
    ⟨hAB, ma, mb, hma, hmb, hbr⟩
  · rcases hAB with hA | hB
    · rw [hA] at hca
      rw [show toQ [] = [] from rfl, com_nil] at hca
      exact absurd hca (by simp)
    · rw [hB] at hcb
      rw [show toQ [] = [] from rfl, com_nil] at hcb
      exact absurd hcb (by simp)
  · rcases hbr with ⟨ca', cb', hca', hcb', hbr⟩ | ⟨hnone, -⟩
    · have hcaa : ca' = ca := Option.some_inj.mp (hca'.symm.trans hca)
      have hcbb : cb' = cb := Option.some_inj.mp (hcb'.symm.trans hcb)
      subst hcaa
      subst hcbb
      rcases hbr with ⟨hlow, -⟩ | ⟨-, hr⟩
      · obtain ⟨h1, h2⟩ := hmax ma mb hma hmb
        rcases hlow with hl | hl
        · exact absurd h1 (not_le.mpr hl)
        · exact absurd h2 (not_le.mpr hl)
      · subst hr
        refine ⟨rfl, ?_⟩
        by_cases hc : ca' < cb'
        · simp [hc]
        · simp [hc]
    · rcases hnone with hn | hn
      · rw [hca] at hn; exact absurd hn (by simp)
      · rw [hcb] at hn; exact absurd hn (by simp)

/-- Witness for the amended C3 on two strong one-spike sides. -/
theorem claim_C3_witness :
    ∃ r, analyze_window_com [⟨0, 0, 2, 30⟩, ⟨1000, 0, 1, 30⟩] defaultConfig =
        some r ∧ r.direction = Direction.A_TO_B ∧
        r.direction ≠ Direction.UNKNOWN := by
  have hagg : aggregate_by_side [⟨0, 0, 2, 30⟩, ⟨1000, 0, 1, 30⟩] =
      ([((0:Int),(30:Int))], [((1000:Int),(30:Int))]) := by decide
  have hca : calculate_center_of_mass
      (toQ (aggregate_by_side [⟨0, 0, 2, 30⟩, ⟨1000, 0, 1, 30⟩]).1)
      ((defaultConfig.min_rise : ℚ) / 2) = some 0 := by
    rw [hagg]
    norm_num [calculate_center_of_mass, toQ, defaultConfig, List.map_cons,
      List.sum_cons]
  have hcb : calculate_center_of_mass
      (toQ (aggregate_by_side [⟨0, 0, 2, 30⟩, ⟨1000, 0, 1, 30⟩]).2)
      ((defaultConfig.min_rise : ℚ) / 2) = some 1000 := by
    rw [hagg]
    norm_num [calculate_center_of_mass, toQ, defaultConfig, List.map_cons,
      List.sum_cons]
  have hmax : ∀ ma mb, listMax ((aggregate_by_side
        [⟨0, 0, 2, 30⟩, ⟨1000, 0, 1, 30⟩]).1.map Prod.snd) = some ma →
      listMax ((aggregate_by_side
        [⟨0, 0, 2, 30⟩, ⟨1000, 0, 1, 30⟩]).2.map Prod.snd) = some mb →
      defaultConfig.min_rise ≤ ma ∧ defaultConfig.min_rise ≤ mb := by
    rw [hagg]
    intro ma mb hma hmb
    have h1 : (30 : Int) = ma := Option.some_inj.mp hma
    have h2 : (30 : Int) = mb := Option.some_inj.mp hmb
    rw [← h1, ← h2]
    norm_num [defaultConfig]
  have hrun : analyze_window_com [⟨0, 0, 2, 30⟩, ⟨1000, 0, 1, 30⟩] defaultConfig =
      some ⟨Direction.A_TO_B, 4 / 5, some 0, some 1000, some 1000, 30, 30⟩ := by
    norm_num [analyze_window_com, analyze_window_com_core, aggregate_by_side,
      aggregate, calculate_center_of_mass, listMax, toQ, defaultConfig, pyInt,
      List.dedup, List.insertionSort, List.orderedInsert, List.filter,
      List.map_cons, List.sum_cons]
    intro hc
    exact absurd hc (List.cons_ne_nil _ _)
  have h := claim_C3_amended [⟨0, 0, 2, 30⟩, ⟨1000, 0, 1, 30⟩] defaultConfig
    _ 0 1000 hca hcb hmax hrun
  refine ⟨_, hrun, ?_, h.2⟩
  rw [h.1]
  norm_num

/-! ## Claim C7 -/

/-- C7: the Hybrid detector reports a direction other than UNKNOWN only when
rise detection yields a qualifying rise on both sides and the two main rises'
peak timestamps are within `maxPeakGapMs`; in that case the direction comes
from comparing the two centers of mass, falling back to comparing the main
rises' peak timestamps when either center of mass is undefined. -/
theorem claim_C7_hybrid_flow (readings : List SensorReading) (config : Config)
    (r : DetectionResult)
    (h : analyze_window_hybrid readings config = some r)
    (hdir : r.direction ≠ Direction.UNKNOWN) :
    ∃ sa sb ra rb mra mrb,
      smooth_signal (aggregate_by_side readings).1 config.smoothing_window =
        some sa ∧
      smooth_signal (aggregate_by_side readings).2 config.smoothing_window =
        some sb ∧
      find_rise_start_times sa (compute_derivative sa) (config.min_rise : ℚ) 2 =
        some ra ∧
      find_rise_start_times sb (compute_derivative sb) (config.min_rise : ℚ) 2 =
        some rb ∧
      ra ≠ [] ∧ rb ≠ [] ∧
      maxByAmount ra = some mra ∧ maxByAmount rb = some mrb ∧
      |mra.2.1 - mrb.2.1| ≤ config.max_peak_gap_ms ∧
      r.direction =
        (match calculate_center_of_mass (toQ (aggregate_by_side readings).1)
            ((config.min_rise : ℚ) / 2),
          calculate_center_of_mass (toQ (aggregate_by_side readings).2)
            ((config.min_rise : ℚ) / 2) with
        | some ca, some cb =>
          if ca < cb then Direction.A_TO_B else Direction.B_TO_A
        | _, _ =>
          if mra.2.1 < mrb.2.1 then Direction.A_TO_B else Direction.B_TO_A) := by
  by_cases hrs : readings = []
  · subst hrs
    have hr : emptyResult = r := Option.some_inj.mp h
    rw [← hr] at hdir
    exact absurd rfl hdir
  rw [analyze_window_hybrid_eq_core readings config hrs] at h
  rcases analyze_window_hybrid_core_cases _ _ _ _ h with ⟨-, hr⟩ |
    ⟨-, ma, mb, sa, sb, hma, hmb, hsa, hsb, hbr⟩
  · subst hr; exact absurd rfl hdir
  rcases hbr with ⟨-, hr⟩ | ⟨-, ra, rb, hra, hrb, hbr⟩
  · subst hr; exact absurd rfl hdir
  rcases hbr with ⟨-, hr⟩ | ⟨hre, mra, mrb, hmra, hmrb, hbr⟩
  · subst hr; exact absurd rfl hdir
  push_neg at hre
  rcases hbr with ⟨-, hr⟩ | ⟨hgap, hbr⟩
  · subst hr; exact absurd rfl hdir
  refine ⟨sa, sb, ra, rb, mra, mrb, hsa, hsb, hra, hrb, hre.1, hre.2,
    hmra, hmrb, not_lt.mp hgap, ?_⟩
  rcases hbr with ⟨ca, cb, hca, hcb, hr⟩ | ⟨hnone, hdir', -⟩
  · subst hr
    rw [hca, hcb]
  · rcases hnone with hn | hn
    · rw [hn, hdir']
    · rw [hn, hdir']
      cases hca2 : calculate_center_of_mass (toQ (aggregate_by_side readings).1)
        ((config.min_rise : ℚ) / 2) <;> rfl

set_option maxHeartbeats 1000000 in
/-- Witness for C7: a clean A→B double-hump transit with window 1, on which
the Hybrid detector reports `A_TO_B`. -/
theorem claim_C7_witness :
    ∃ sa sb ra rb mra mrb,
      smooth_signal (aggregate_by_side
        [⟨0,0,2,0⟩, ⟨10,0,2,30⟩, ⟨20,0,2,90⟩, ⟨30,0,2,150⟩, ⟨40,0,2,150⟩, ⟨50,0,2,0⟩,
         ⟨40,0,1,0⟩, ⟨50,0,1,30⟩, ⟨60,0,1,90⟩, ⟨70,0,1,150⟩, ⟨80,0,1,150⟩,
         ⟨90,0,1,0⟩]).1 (Config.mk 1 10 100).smoothing_window = some sa ∧
      smooth_signal (aggregate_by_side
        [⟨0,0,2,0⟩, ⟨10,0,2,30⟩, ⟨20,0,2,90⟩, ⟨30,0,2,150⟩, ⟨40,0,2,150⟩, ⟨50,0,2,0⟩,
         ⟨40,0,1,0⟩, ⟨50,0,1,30⟩, ⟨60,0,1,90⟩, ⟨70,0,1,150⟩, ⟨80,0,1,150⟩,
         ⟨90,0,1,0⟩]).2 (Config.mk 1 10 100).smoothing_window = some sb ∧
      find_rise_start_times sa (compute_derivative sa)
        (((Config.mk 1 10 100).min_rise : Int) : ℚ) 2 = some ra ∧
      find_rise_start_times sb (compute_derivative sb)
        (((Config.mk 1 10 100).min_rise : Int) : ℚ) 2 = some rb ∧
      ra ≠ [] ∧ rb ≠ [] ∧
      maxByAmount ra = some mra ∧ maxByAmount rb = some mrb ∧
      |mra.2.1 - mrb.2.1| ≤ (Config.mk 1 10 100).max_peak_gap_ms ∧
      (⟨Direction.A_TO_B, 1, some 30, some 70, some 40, 150, 150⟩ :
          DetectionResult).direction =
        (match calculate_center_of_mass (toQ (aggregate_by_side
            [⟨0,0,2,0⟩, ⟨10,0,2,30⟩, ⟨20,0,2,90⟩, ⟨30,0,2,150⟩, ⟨40,0,2,150⟩,
             ⟨50,0,2,0⟩, ⟨40,0,1,0⟩, ⟨50,0,1,30⟩, ⟨60,0,1,90⟩, ⟨70,0,1,150⟩,
             ⟨80,0,1,150⟩, ⟨90,0,1,0⟩]).1)
            (((Config.mk 1 10 100).min_rise : ℚ) / 2),
          calculate_center_of_mass (toQ (aggregate_by_side
            [⟨0,0,2,0⟩, ⟨10,0,2,30⟩, ⟨20,0,2,90⟩, ⟨30,0,2,150⟩, ⟨40,0,2,150⟩,
             ⟨50,0,2,0⟩, ⟨40,0,1,0⟩, ⟨50,0,1,30⟩, ⟨60,0,1,90⟩, ⟨70,0,1,150⟩,
             ⟨80,0,1,150⟩, ⟨90,0,1,0⟩]).2)
            (((Config.mk 1 10 100).min_rise : ℚ) / 2) with
        | some ca, some cb =>
          if ca < cb then Direction.A_TO_B else Direction.B_TO_A
        | _, _ =>
          if mra.2.1 < mrb.2.1 then Direction.A_TO_B else Direction.B_TO_A) := by
  have hagg : aggregate_by_side
      [⟨0,0,2,0⟩, ⟨10,0,2,30⟩, ⟨20,0,2,90⟩, ⟨30,0,2,150⟩, ⟨40,0,2,150⟩, ⟨50,0,2,0⟩,
       ⟨40,0,1,0⟩, ⟨50,0,1,30⟩, ⟨60,0,1,90⟩, ⟨70,0,1,150⟩, ⟨80,0,1,150⟩, ⟨90,0,1,0⟩] =
      ([((0:Int),(0:Int)),(10,30),(20,90),(30,150),(40,150),(50,0)],
       [((40:Int),(0:Int)),(50,30),(60,90),(70,150),(80,150),(90,0)]) := by decide
  have hAm : listMax (([((0:Int),(0:Int)),(10,30),(20,90),(30,150),(40,150),(50,0)] :
      Sig Int).map Prod.snd) = some 150 := by decide
  have hBm : listMax (([((40:Int),(0:Int)),(50,30),(60,90),(70,150),(80,150),(90,0)] :
      Sig Int).map Prod.snd) = some 150 := by decide
  have hAs : smooth_signal [((0:Int),(0:Int)),(10,30),(20,90),(30,150),(40,150),(50,0)] 1 =
      some [((0:Int),(0:ℚ)),(10,30),(20,90),(30,150),(40,150),(50,0)] := by
    norm_num [smooth_signal, mapMO, smoothAt, List.enum, List.enumFrom]
  have hBs : smooth_signal [((40:Int),(0:Int)),(50,30),(60,90),(70,150),(80,150),(90,0)] 1 =
      some [((40:Int),(0:ℚ)),(50,30),(60,90),(70,150),(80,150),(90,0)] := by
    norm_num [smooth_signal, mapMO, smoothAt, List.enum, List.enumFrom]
  have hAd : compute_derivative [((0:Int),(0:ℚ)),(10,30),(20,90),(30,150),(40,150),(50,0)] =
      [((10:Int),(30:ℚ)),(20,60),(30,60),(40,0),(50,-150)] := by
    norm_num [compute_derivative, List.zip, List.zipWith]
  have hBd : compute_derivative [((40:Int),(0:ℚ)),(50,30),(60,90),(70,150),(80,150),(90,0)] =
      [((50:Int),(30:ℚ)),(60,60),(70,60),(80,0),(90,-150)] := by
    norm_num [compute_derivative, List.zip, List.zipWith]
  have hAr : find_rise_start_times
      [((0:Int),(0:ℚ)),(10,30),(20,90),(30,150),(40,150),(50,0)]
      [((10:Int),(30:ℚ)),(20,60),(30,60),(40,0),(50,-150)] ((10:Int) : ℚ) 2 =
      some [(10, 30, 120)] := by
    simp only [find_rise_start_times, sigKeys, List.map_cons, List.map_nil,
      List.length_cons, List.length_nil]
    norm_num [riseLoop, riseStep, risePhase1, risePhase2, nthD, lookupD_cons,
      lookupD_nil, pyIdx, List.get?]
  have hBr : find_rise_start_times
      [((40:Int),(0:ℚ)),(50,30),(60,90),(70,150),(80,150),(90,0)]
      [((50:Int),(30:ℚ)),(60,60),(70,60),(80,0),(90,-150)] ((10:Int) : ℚ) 2 =
      some [(50, 70, 120)] := by
    simp only [find_rise_start_times, sigKeys, List.map_cons, List.map_nil,
      List.length_cons, List.length_nil]
    norm_num [riseLoop, riseStep, risePhase1, risePhase2, nthD, lookupD_cons,
      lookupD_nil, pyIdx, List.get?]
  have hAc : calculate_center_of_mass
      (toQ [((0:Int),(0:Int)),(10,30),(20,90),(30,150),(40,150),(50,0)])
      (((10:Int) : ℚ) / 2) = some (121/4) := by
    norm_num [calculate_center_of_mass, toQ, List.map_cons, List.sum_cons]
  have hBc : calculate_center_of_mass
      (toQ [((40:Int),(0:Int)),(50,30),(60,90),(70,150),(80,150),(90,0)])
      (((10:Int) : ℚ) / 2) = some (281/4) := by
    norm_num [calculate_center_of_mass, toQ, List.map_cons, List.sum_cons]
  have hrun : analyze_window_hybrid
      [⟨0,0,2,0⟩, ⟨10,0,2,30⟩, ⟨20,0,2,90⟩, ⟨30,0,2,150⟩, ⟨40,0,2,150⟩, ⟨50,0,2,0⟩,
       ⟨40,0,1,0⟩, ⟨50,0,1,30⟩, ⟨60,0,1,90⟩, ⟨70,0,1,150⟩, ⟨80,0,1,150⟩, ⟨90,0,1,0⟩]
      ⟨1, 10, 100⟩ =
      some ⟨Direction.A_TO_B, 1, some 30, some 70, some 40, 150, 150⟩ := by
    rw [analyze_window_hybrid_eq_core _ _ (List.cons_ne_nil _ _), hagg]
    show analyze_window_hybrid_core _ _ _ = _
    unfold analyze_window_hybrid_core
    rw [if_neg (by simp)]
    rw [hAm, hBm]
    simp only
    rw [hAs, hBs]
    simp only
    rw [hAd, hBd]
    rw [if_neg (by simp)]
    rw [hAr, hBr]
    simp only
    rw [if_neg (by simp)]
    rw [show maxByAmount [((10:Int), (30:Int), (120:ℚ))] = some (10, 30, 120) from rfl,
        show maxByAmount [((50:Int), (70:Int), (120:ℚ))] = some (50, 70, 120) from rfl]
    simp only
    rw [if_neg (by norm_num)]
    rw [hAc, hBc]
    simp only
    norm_num [pyInt]
  exact claim_C7_hybrid_flow _ _ _ hrun (by simp)

/-! ## Claim C4: swap lemmas for the cores -/

theorem dirIte_ne_unknown (c : Prop) [Decidable c] :
    (if c then Direction.A_TO_B else Direction.B_TO_A) ≠ Direction.UNKNOWN := by
  by_cases h : c <;> simp [h]

theorem analyze_window_com_core_swap (A B : Sig Int) (cfg : Config)
    (r r' : DetectionResult)
    (h : analyze_window_com_core A B cfg = some r)
    (h' : analyze_window_com_core B A cfg = some r') :
    (r.direction = Direction.UNKNOWN ↔ r'.direction = Direction.UNKNOWN) ∧
    (r.direction = Direction.A_TO_B → r'.direction = Direction.B_TO_A) ∧
    (r'.direction = Direction.A_TO_B → r.direction = Direction.B_TO_A) ∧
    r'.confidence = r.confidence ∧
    r'.side_a_max = r.side_b_max ∧ r'.side_b_max = r.side_a_max := by
  rcases analyze_window_com_core_cases _ _ _ _ h with ⟨hAB, hr⟩ |
    ⟨hAB, ma, mb, hma, hmb, hbr⟩
  · rcases analyze_window_com_core_cases _ _ _ _ h' with ⟨-, hr'⟩ | ⟨hAB', -⟩
    · subst hr; subst hr'
      exact ⟨Iff.rfl, by simp [emptyResult], by simp [emptyResult], rfl, rfl, rfl⟩
    · exact absurd (Or.symm hAB) hAB'
  · rcases analyze_window_com_core_cases _ _ _ _ h' with ⟨hAB', -⟩ |
      ⟨-, ma', mb', hma', hmb', hbr'⟩
    · exact absurd (Or.symm hAB') hAB
    have hmaeq : mb = ma' := Option.some_inj.mp (hmb.symm.trans hma')
    have hmbeq : ma = mb' := Option.some_inj.mp (hma.symm.trans hmb')
    subst hmaeq
    subst hmbeq
    rcases hbr with ⟨ca, cb, hca, hcb, hsub⟩ | ⟨hnone, hr⟩
    · rcases hbr' with ⟨ca', cb', hca', hcb', hsub'⟩ | ⟨hnone', -⟩
      · have hcaeq : cb = ca' := Option.some_inj.mp (hcb.symm.trans hca')
        have hcbeq : ca = cb' := Option.some_inj.mp (hca.symm.trans hcb')
        subst hcaeq
        subst hcbeq
        rcases hsub with ⟨hlow, hr⟩ | ⟨hlow, hr⟩
        · rcases hsub' with ⟨-, hr'⟩ | ⟨hlow', -⟩
          · subst hr; subst hr'
            exact ⟨Iff.rfl, by simp, by simp, rfl, rfl, rfl⟩
          · exact absurd (Or.symm hlow) hlow'
        · rcases hsub' with ⟨hlow', -⟩ | ⟨-, hr'⟩
          · exact absurd (Or.symm hlow') hlow
          · subst hr; subst hr'
            refine ⟨?_, ?_, ?_, ?_, rfl, rfl⟩
            · simp only
              constructor
              · intro hc; exact absurd hc (dirIte_ne_unknown _)
              · intro hc; exact absurd hc (dirIte_ne_unknown _)
            · simp only
              intro hc
              by_cases hlt : ca < cb
              · rw [if_neg (not_lt.mpr (le_of_lt hlt))]
              · rw [if_neg hlt] at hc
                exact absurd hc (by simp)
            · simp only
              intro hc
              by_cases hlt : cb < ca
              · rw [if_neg (not_lt.mpr (le_of_lt hlt))]
              · rw [if_neg hlt] at hc
                exact absurd hc (by simp)
            · simp only
              rw [abs_sub_comm cb ca, Int.add_comm mb ma]
      · rcases hnone' with hn | hn
        · exact absurd (hcb.symm.trans hn) (by simp)
        · exact absurd (hca.symm.trans hn) (by simp)
    · rcases hbr' with ⟨ca', cb', hca', hcb', -⟩ | ⟨hnone', hr'⟩
      · rcases hnone with hn | hn
        · exact absurd (hn.symm.trans hcb') (by simp)
        · exact absurd (hn.symm.trans hca') (by simp)
      · subst hr; subst hr'
        exact ⟨Iff.rfl, by simp, by simp, rfl, rfl, rfl⟩

theorem dirIte4_ne_unknown (c1 c2 c3 : Prop) [Decidable c1] [Decidable c2]
    [Decidable c3] :
    (if c1 then Direction.A_TO_B else if c2 then Direction.B_TO_A
      else if c3 then Direction.A_TO_B else Direction.B_TO_A) ≠
      Direction.UNKNOWN := by
  by_cases h1 : c1 <;> by_cases h2 : c2 <;> by_cases h3 : c3 <;>
    simp [h1, h2, h3]

theorem analyze_window_core_swap (A B : Sig Int) (cfg : Config)
    (r r' : DetectionResult)
    (h : analyze_window_core A B cfg = some r)
    (h' : analyze_window_core B A cfg = some r') :
    (r.direction = Direction.UNKNOWN ↔ r'.direction = Direction.UNKNOWN) ∧
    (r.direction = Direction.A_TO_B → r'.direction = Direction.B_TO_A) ∧
    (r'.direction = Direction.A_TO_B → r.direction = Direction.B_TO_A) ∧
    r'.confidence = r.confidence ∧
    r'.side_a_max = r.side_b_max ∧ r'.side_b_max = r.side_a_max := by
  rcases analyze_window_core_cases _ _ _ _ h with ⟨hAB, hr⟩ |
    ⟨hAB, sa, sb, ma, mb, hsa, hsb, hma, hmb, hbr⟩
  · rcases analyze_window_core_cases _ _ _ _ h' with ⟨-, hr'⟩ | ⟨hAB', _⟩
    · subst hr; subst hr'
      exact ⟨Iff.rfl, by simp [emptyResult], by simp [emptyResult], rfl, rfl, rfl⟩
    · exact absurd (Or.symm hAB) hAB'
  · rcases analyze_window_core_cases _ _ _ _ h' with ⟨hAB', -⟩ |
      ⟨-, sa', sb', ma', mb', hsa', hsb', hma', hmb', hbr'⟩
    · exact absurd (Or.symm hAB') hAB
    have e1 : sb = sa' := Option.some_inj.mp (hsb.symm.trans hsa')
    have e2 : sa = sb' := Option.some_inj.mp (hsa.symm.trans hsb')
    subst e1
    subst e2
    have e3 : mb = ma' := Option.some_inj.mp (hmb.symm.trans hma')
    have e4 : ma = mb' := Option.some_inj.mp (hma.symm.trans hmb')
    subst e3
    subst e4
    rcases hbr with ⟨hd, hr⟩ | ⟨hd, ra, rb, hra, hrb, hbr⟩
    · rcases hbr' with ⟨-, hr'⟩ | ⟨hd', -, -, -, -, -⟩
      · subst hr; subst hr'
        exact ⟨Iff.rfl, by simp, by simp, rfl, rfl, rfl⟩
      · exact absurd (Or.symm hd) hd'
    · rcases hbr' with ⟨hd', -⟩ | ⟨-, ra', rb', hra', hrb', hbr'⟩
      · exact absurd (Or.symm hd') hd
      have e5 : rb = ra' := Option.some_inj.mp (hrb.symm.trans hra')
      have e6 : ra = rb' := Option.some_inj.mp (hra.symm.trans hrb')
      subst e5
      subst e6
      rcases hbr with ⟨hre, hr⟩ | ⟨hre, mra, mrb, hmra, hmrb, hbr⟩
      · rcases hbr' with ⟨-, hr'⟩ | ⟨hre', -, -, -, -, -⟩
        · subst hr; subst hr'
          exact ⟨Iff.rfl, by simp, by simp, rfl, rfl, rfl⟩
        · exact absurd (Or.symm hre) hre'
      · rcases hbr' with ⟨hre', -⟩ | ⟨-, mra', mrb', hmra', hmrb', hbr'⟩
        · exact absurd (Or.symm hre') hre
        have e7 : mrb = mra' := Option.some_inj.mp (hmrb.symm.trans hmra')
        have e8 : mra = mrb' := Option.some_inj.mp (hmra.symm.trans hmrb')
        subst e7
        subst e8
        have habs : |mrb.2.1 - mra.2.1| = |mra.2.1 - mrb.2.1| :=
          abs_sub_comm mrb.2.1 mra.2.1
        rcases hbr with ⟨hgap, hr⟩ | ⟨hgap, hr⟩
        · rcases hbr' with ⟨-, hr'⟩ | ⟨hgap', -⟩
          · subst hr; subst hr'
            exact ⟨Iff.rfl, by simp, by simp, rfl, rfl, rfl⟩
          · rw [habs] at hgap'
            exact absurd hgap hgap'
        · rcases hbr' with ⟨hgap', -⟩ | ⟨-, hr'⟩
          · rw [habs] at hgap'
            exact absurd hgap' hgap
          subst hr; subst hr'
          refine ⟨?_, ?_, ?_, ?_, rfl, rfl⟩
          · simp only
            constructor
            · intro hc; exact absurd hc (dirIte4_ne_unknown _ _ _)
            · intro hc; exact absurd hc (dirIte4_ne_unknown _ _ _)
          · simp only
            intro hc
            rcases lt_trichotomy mra.1 mrb.1 with hlt | heq | hgt
            · rw [if_neg (not_lt.mpr (le_of_lt hlt)), if_pos hlt]
            · have hn1 : ¬(mra.1 < mrb.1) := by rw [heq]; exact lt_irrefl _
              have hn2 : ¬(mrb.1 < mra.1) := by rw [heq]; exact lt_irrefl _
              rw [if_neg hn1, if_neg hn2] at hc
              rw [if_neg hn2, if_neg hn1]
              by_cases hp : mra.2.1 < mrb.2.1
              · rw [if_neg (not_lt.mpr (le_of_lt hp))]
              · rw [if_neg hp] at hc
                exact absurd hc (by simp)
            · rw [if_neg (not_lt.mpr (le_of_lt hgt)), if_pos hgt] at hc
              exact absurd hc (by simp)
          · simp only
            intro hc
            rcases lt_trichotomy mrb.1 mra.1 with hlt | heq | hgt
            · rw [if_neg (not_lt.mpr (le_of_lt hlt)), if_pos hlt]
            · have hn1 : ¬(mrb.1 < mra.1) := by rw [heq]; exact lt_irrefl _
              have hn2 : ¬(mra.1 < mrb.1) := by rw [heq]; exact lt_irrefl _
              rw [if_neg hn1, if_neg hn2] at hc
              rw [if_neg hn2, if_neg hn1]
              by_cases hp : mrb.2.1 < mra.2.1
              · rw [if_neg (not_lt.mpr (le_of_lt hp))]
              · rw [if_neg hp] at hc
                exact absurd hc (by simp)
            · rw [if_neg (not_lt.mpr (le_of_lt hgt)), if_pos hgt] at hc
              exact absurd hc (by simp)
          · simp only
            rw [abs_sub_comm mrb.1 mra.1, add_comm mrb.2.2 mra.2.2]

theorem analyze_window_hybrid_core_swap (A B : Sig Int) (cfg : Config)
    (r r' : DetectionResult)
    (h : analyze_window_hybrid_core A B cfg = some r)
    (h' : analyze_window_hybrid_core B A cfg = some r') :
    (r.direction = Direction.UNKNOWN ↔ r'.direction = Direction.UNKNOWN) ∧
    (r.direction = Direction.A_TO_B → r'.direction = Direction.B_TO_A) ∧
    (r'.direction = Direction.A_TO_B → r.direction = Direction.B_TO_A) ∧
    r'.confidence = r.confidence ∧
    r'.side_a_max = r.side_b_max ∧ r'.side_b_max = r.side_a_max := by
  rcases analyze_window_hybrid_core_cases _ _ _ _ h with ⟨hAB, hr⟩ |
    ⟨hAB, ma, mb, sa, sb, hma, hmb, hsa, hsb, hbr⟩
  · rcases analyze_window_hybrid_core_cases _ _ _ _ h' with ⟨-, hr'⟩ | ⟨hAB', _⟩
    · subst hr; subst hr'
      exact ⟨Iff.rfl, by simp [emptyResult], by simp [emptyResult], rfl, rfl, rfl⟩
    · exact absurd (Or.symm hAB) hAB'
  · rcases analyze_window_hybrid_core_cases _ _ _ _ h' with ⟨hAB', -⟩ |
      ⟨-, ma', mb', sa', sb', hma', hmb', hsa', hsb', hbr'⟩
    · exact absurd (Or.symm hAB') hAB
    have e1 : sb = sa' := Option.some_inj.mp (hsb.symm.trans hsa')
    have e2 : sa = sb' := Option.some_inj.mp (hsa.symm.trans hsb')
    subst e1
    subst e2
    have e3 : mb = ma' := Option.some_inj.mp (hmb.symm.trans hma')
    have e4 : ma = mb' := Option.some_inj.mp (hma.symm.trans hmb')
    subst e3
    subst e4
    rcases hbr with ⟨hd, hr⟩ | ⟨hd, ra, rb, hra, hrb, hbr⟩
    · rcases hbr' with ⟨-, hr'⟩ | ⟨hd', -, -, -, -, -⟩
      · subst hr; subst hr'
        exact ⟨Iff.rfl, by simp, by simp, rfl, rfl, rfl⟩
      · exact absurd (Or.symm hd) hd'
    · rcases hbr' with ⟨hd', -⟩ | ⟨-, ra', rb', hra', hrb', hbr'⟩
      · exact absurd (Or.symm hd') hd
      have e5 : rb = ra' := Option.some_inj.mp (hrb.symm.trans hra')
      have e6 : ra = rb' := Option.some_inj.mp (hra.symm.trans hrb')
      subst e5
      subst e6
      rcases hbr with ⟨hre, hr⟩ | ⟨hre, mra, mrb, hmra, hmrb, hbr⟩
      · rcases hbr' with ⟨-, hr'⟩ | ⟨hre', -, -, -, -, -⟩
        · subst hr; subst hr'
          exact ⟨Iff.rfl, by simp, by simp, rfl, rfl, rfl⟩
        · exact absurd (Or.symm hre) hre'
      · rcases hbr' with ⟨hre', -⟩ | ⟨-, mra', mrb', hmra', hmrb', hbr'⟩
        · exact absurd (Or.symm hre') hre
        have e7 : mrb = mra' := Option.some_inj.mp (hmrb.symm.trans hmra')
        have e8 : mra = mrb' := Option.some_inj.mp (hmra.symm.trans hmrb')
        subst e7
        subst e8
        have habs : |mrb.2.1 - mra.2.1| = |mra.2.1 - mrb.2.1| :=
          abs_sub_comm mrb.2.1 mra.2.1
        rcases hbr with ⟨hgap, hr⟩ | ⟨hgap, hbr⟩
        · rcases hbr' with ⟨-, hr'⟩ | ⟨hgap', -⟩
          · subst hr; subst hr'
            exact ⟨Iff.rfl, by simp, by simp, rfl, rfl, rfl⟩
          · rw [habs] at hgap'
            exact absurd hgap hgap'
        · rcases hbr' with ⟨hgap', -⟩ | ⟨-, hbr'⟩
          · rw [habs] at hgap'
            exact absurd hgap' hgap
          rcases hbr with ⟨ca, cb, hca, hcb, hr⟩ |
            ⟨hnone, hdir, hconf, -, -, -, hsmaxa, hsmaxb⟩
          · rcases hbr' with ⟨ca', cb', hca', hcb', hr'⟩ | ⟨hnone', -⟩
            · have e9 : cb = ca' := Option.some_inj.mp (hcb.symm.trans hca')
              have e10 : ca = cb' := Option.some_inj.mp (hca.symm.trans hcb')
              subst e9
              subst e10
              subst hr; subst hr'
              refine ⟨?_, ?_, ?_, ?_, rfl, rfl⟩
              · simp only
                constructor
                · intro hc; exact absurd hc (dirIte_ne_unknown _)
                · intro hc; exact absurd hc (dirIte_ne_unknown _)
              · simp only
                intro hc
                by_cases hlt : ca < cb
                · rw [if_neg (not_lt.mpr (le_of_lt hlt))]
                · rw [if_neg hlt] at hc
                  exact absurd hc (by simp)
              · simp only
                intro hc
                by_cases hlt : cb < ca
                · rw [if_neg (not_lt.mpr (le_of_lt hlt))]
                · rw [if_neg hlt] at hc
                  exact absurd hc (by simp)
              · simp only
                rw [abs_sub_comm cb ca, Int.add_comm mb ma]
            · rcases hnone' with hn | hn
              · exact absurd (hcb.symm.trans hn) (by simp)
              · exact absurd (hca.symm.trans hn) (by simp)
          · rcases hbr' with ⟨ca', cb', hca', hcb', -⟩ |
              ⟨hnone', hdir', hconf', -, -, -, hsmaxa', hsmaxb'⟩
            · rcases hnone with hn | hn
              · exact absurd (hn.symm.trans hcb') (by simp)
              · exact absurd (hn.symm.trans hca') (by simp)
            · refine ⟨?_, ?_, ?_, ?_, ?_, ?_⟩
              · rw [hdir, hdir']
                constructor
                · intro hc; exact absurd hc (dirIte_ne_unknown _)
                · intro hc; exact absurd hc (dirIte_ne_unknown _)
              · rw [hdir, hdir']
                intro hc
                by_cases hlt : mra.2.1 < mrb.2.1
                · rw [if_neg (not_lt.mpr (le_of_lt hlt))]
                · rw [if_neg hlt] at hc
                  exact absurd hc (by simp)
              · rw [hdir, hdir']
                intro hc
                by_cases hlt : mrb.2.1 < mra.2.1
                · rw [if_neg (not_lt.mpr (le_of_lt hlt))]
                · rw [if_neg hlt] at hc
                  exact absurd hc (by simp)
              · rw [hconf, hconf', habs, Int.add_comm mb ma]
              · rw [hsmaxa', hsmaxb]
              · rw [hsmaxb', hsmaxa]

/-- C4 is false as stated: on a perfectly symmetric input both centers of
mass tie, and both the original and the side-swapped run report `B_TO_A`
(the tie falls into the `else` branch both times), so `B_TO_A` does not flip
to `A_TO_B`. -/
theorem claim_C4_counterexample :
    (analyze_window_com [⟨0, 0, 2, 20⟩, ⟨0, 0, 1, 20⟩] defaultConfig).map
        (fun r => r.direction) = some Direction.B_TO_A ∧
    (analyze_window_com (([⟨0, 0, 2, 20⟩, ⟨0, 0, 1, 20⟩] :
        List SensorReading).map swapSide) defaultConfig).map
        (fun r => r.direction) = some Direction.B_TO_A := by
  have hmap : ([⟨0, 0, 2, 20⟩, ⟨0, 0, 1, 20⟩] : List SensorReading).map swapSide =
      [⟨0, 0, 1, 20⟩, ⟨0, 0, 2, 20⟩] := by decide
  constructor
  · norm_num [analyze_window_com, analyze_window_com_core, aggregate_by_side,
      aggregate, calculate_center_of_mass, listMax, toQ, defaultConfig, pyInt,
      List.dedup, List.insertionSort, List.orderedInsert, List.filter,
      List.map_cons, List.sum_cons]
    rw [if_neg (List.cons_ne_nil _ _)]
    exact ⟨_, rfl, rfl⟩
  · rw [hmap]
    norm_num [analyze_window_com, analyze_window_com_core, aggregate_by_side,
      aggregate, calculate_center_of_mass, listMax, toQ, defaultConfig, pyInt,
      List.dedup, List.insertionSort, List.orderedInsert, List.filter,
      List.map_cons, List.sum_cons]
    rw [if_neg (List.cons_ne_nil _ _)]
    exact ⟨_, rfl, rfl⟩

/-- C4 amended: swapping all side tags (1↔2) maps UNKNOWN to UNKNOWN, maps
`A_TO_B` in either run to `B_TO_A` in the other, keeps the confidence
unchanged and swaps `sideAMax`/`sideBMax`.  (On exact timing ties both runs
return `B_TO_A`, so `B_TO_A` need not flip back to `A_TO_B`.) -/
theorem claim_C4_amended (readings : List SensorReading) (config : Config)
    (hs : ∀ x ∈ readings, x.side = 1 ∨ x.side = 2) :
    (∀ r r', analyze_window readings config = some r →
      analyze_window (readings.map swapSide) config = some r' →
      (r.direction = Direction.UNKNOWN ↔ r'.direction = Direction.UNKNOWN) ∧
      (r.direction = Direction.A_TO_B → r'.direction = Direction.B_TO_A) ∧
      (r'.direction = Direction.A_TO_B → r.direction = Direction.B_TO_A) ∧
      r'.confidence = r.confidence ∧
      r'.side_a_max = r.side_b_max ∧ r'.side_b_max = r.side_a_max) ∧
    (∀ r r', analyze_window_com readings config = some r →
      analyze_window_com (readings.map swapSide) config = some r' →
      (r.direction = Direction.UNKNOWN ↔ r'.direction = Direction.UNKNOWN) ∧
      (r.direction = Direction.A_TO_B → r'.direction = Direction.B_TO_A) ∧
      (r'.direction = Direction.A_TO_B → r.direction = Direction.B_TO_A) ∧
      r'.confidence = r.confidence ∧
      r'.side_a_max = r.side_b_max ∧ r'.side_b_max = r.side_a_max) ∧
    (∀ r r', analyze_window_hybrid readings config = some r →
      analyze_window_hybrid (readings.map swapSide) config = some r' →
      (r.direction = Direction.UNKNOWN ↔ r'.direction = Direction.UNKNOWN) ∧
      (r.direction = Direction.A_TO_B → r'.direction = Direction.B_TO_A) ∧
      (r'.direction = Direction.A_TO_B → r.direction = Direction.B_TO_A) ∧
      r'.confidence = r.confidence ∧
      r'.side_a_max = r.side_b_max ∧ r'.side_b_max = r.side_a_max) := by
  by_cases hrs : readings = []
  · subst hrs
    refine ⟨?_, ?_, ?_⟩ <;>
      · intro r r' h h'
        have hr : emptyResult = r := Option.some_inj.mp h
        have hr' : emptyResult = r' := Option.some_inj.mp h'
        rw [← hr, ← hr']
        exact ⟨Iff.rfl, by simp [emptyResult], by simp [emptyResult], rfl, rfl, rfl⟩
  · have hrs' : readings.map swapSide ≠ [] := by
      intro hc
      exact hrs (List.map_eq_nil.mp hc)
    refine ⟨?_, ?_, ?_⟩
    · intro r r' h h'
      rw [analyze_window_eq_core readings config hrs] at h
      rw [analyze_window_eq_core (readings.map swapSide) config hrs',
        aggregate_by_side_swap readings hs] at h'
      exact analyze_window_core_swap _ _ _ _ _ h h'
    · intro r r' h h'
      rw [analyze_window_com_eq_core readings config hrs] at h
      rw [analyze_window_com_eq_core (readings.map swapSide) config hrs',
        aggregate_by_side_swap readings hs] at h'
      exact analyze_window_com_core_swap _ _ _ _ _ h h'
    · intro r r' h h'
      rw [analyze_window_hybrid_eq_core readings config hrs] at h
      rw [analyze_window_hybrid_eq_core (readings.map swapSide) config hrs',
        aggregate_by_side_swap readings hs] at h'
      exact analyze_window_hybrid_core_swap _ _ _ _ _ h h'

/-- Witness for the amended C4: a non-tied input on which the original run
reports `A_TO_B` and the swapped run therefore reports `B_TO_A` with equal
confidence and swapped maxima. -/
theorem claim_C4_witness :
    ∃ r r', analyze_window_com [⟨0, 0, 2, 30⟩, ⟨1000, 0, 1, 30⟩] defaultConfig =
        some r ∧
      analyze_window_com (([⟨0, 0, 2, 30⟩, ⟨1000, 0, 1, 30⟩] :
        List SensorReading).map swapSide) defaultConfig = some r' ∧
      r.direction = Direction.A_TO_B ∧ r'.direction = Direction.B_TO_A ∧
      r'.confidence = r.confidence ∧
      r'.side_a_max = r.side_b_max ∧ r'.side_b_max = r.side_a_max := by
  have hmap : ([⟨0, 0, 2, 30⟩, ⟨1000, 0, 1, 30⟩] : List SensorReading).map swapSide =
      [⟨0, 0, 1, 30⟩, ⟨1000, 0, 2, 30⟩] := by decide
  have hrun1 : analyze_window_com [⟨0, 0, 2, 30⟩, ⟨1000, 0, 1, 30⟩] defaultConfig =
      some ⟨Direction.A_TO_B, 4 / 5, some 0, some 1000, some 1000, 30, 30⟩ := by
    norm_num [analyze_window_com, analyze_window_com_core, aggregate_by_side,
      aggregate, calculate_center_of_mass, listMax, toQ, defaultConfig, pyInt,
      List.dedup, List.insertionSort, List.orderedInsert, List.filter,
      List.map_cons, List.sum_cons]
    intro hc
    exact absurd hc (List.cons_ne_nil _ _)
  have hrun2 : analyze_window_com (([⟨0, 0, 2, 30⟩, ⟨1000, 0, 1, 30⟩] :
      List SensorReading).map swapSide) defaultConfig =
      some ⟨Direction.B_TO_A, 4 / 5, some 1000, some 0, some 1000, 30, 30⟩ := by
    rw [hmap]
    norm_num [analyze_window_com, analyze_window_com_core, aggregate_by_side,
      aggregate, calculate_center_of_mass, listMax, toQ, defaultConfig, pyInt,
      List.dedup, List.insertionSort, List.orderedInsert, List.filter,
      List.map_cons, List.sum_cons]
    intro hc
    exact absurd hc (List.cons_ne_nil _ _)
  have h := (claim_C4_amended [⟨0, 0, 2, 30⟩, ⟨1000, 0, 1, 30⟩] defaultConfig
    (by intro x hx; fin_cases hx <;> simp)).2.1 _ _ hrun1 hrun2
  refine ⟨_, _, hrun1, hrun2, rfl, ?_, h.2.2.2.1, h.2.2.2.2.1, h.2.2.2.2.2⟩
  exact h.2.1 rfl
